import Mathlib

/-!
# Simple-Animation-Toolkit: the `Animation` timer and its compositions

Shallow embedding of `src/main.cpp`.

* The numeric type `T` of `Animation<T>`: the finite values of `T` are rationals, and
  an arithmetic operation of `T` is the exact operation followed by a rounding
  `fl : ℚ → ℚ` into `T`. `fl = id` is exact arithmetic; `fl32` is `float` (IEEE
  binary32, round to nearest, ties to even), the `T` of every animation of `main`.
  Integer constants (`0`, `1`, `-1`, `8`) are values of `T`; the constants `0.5`,
  `0.025` and `0.55` are rounded into `T`. Overflow to infinity and division by zero
  (`inf`, `NaN`) are outside the model: a statement that depends on a quotient assumes
  a positive duration, and the durations set by the program are positive in `float`.
* A `std::function<void(void)>` stored in a callback vector is a value of a type `F`
  of closures; invoking it is `call f : W → Option W` on the whole program state `W`
  (`none` means that the nested calls did not return within the fuel given).
* An `Animation` object that lives inside a larger program state `W` is addressed
  through a `Ref W F` (read the object, write the object back).
-/

namespace SAT

/-- The data members of `template <class T> struct Animation` with `T := ℚ`. -/
structure Animation (F : Type) where
  alpha : ℚ
  duration : ℚ
  triggerAt : ℚ
  triggered : Bool
  active : Bool
  onStartCallbacks : List F
  onEndCallbacks : List F

/-- A reference to an `Animation` object stored in a program state `W`. -/
structure Ref (W F : Type) where
  get : W → Animation F
  set : Animation F → W → W

/-- What the theorems use of the rounding of `T`: it is monotone, it leaves a value of
`T` as it is, and `0` and `1` are values of `T`. -/
structure Rounding (fl : ℚ → ℚ) : Prop where
  mono : ∀ x y, x ≤ y → fl x ≤ fl y
  idem : ∀ x, fl (fl x) = fl x
  zero : fl 0 = 0
  one : fl 1 = 1

/-- Rounding to the nearest integer, ties to the even one. -/
def roundEven (y : ℚ) : ℤ :=
  if y - ⌊y⌋ < 1 / 2 then ⌊y⌋
  else if 1 / 2 < y - ⌊y⌋ then ⌊y⌋ + 1
  else if ⌊y⌋ % 2 = 0 then ⌊y⌋ else ⌊y⌋ + 1

/-- The binary exponent of a magnitude `x` in binary32: `⌊log₂ x⌋`, and `-126` below
the normal range (subnormal numbers). -/
def binade (x : ℚ) : ℤ :=
  max (Int.log 2 x) (-126)

/-- Rounding of a magnitude `x ≥ 0` to the 24 significant bits of binary32. -/
def flmag (x : ℚ) : ℚ :=
  roundEven (x / 2 ^ (binade x - 23)) * 2 ^ (binade x - 23)

/-- The `float` (IEEE binary32, round to nearest, ties to even) nearest to `x`, for `x`
in the finite range. -/
def fl32 (x : ℚ) : ℚ :=
  if 0 ≤ x then flmag x else -flmag (-x)

section Core

variable {W F : Type}

/-- Member function `Animation::reset`. -/
def Animation.reset (a : Animation F) : Animation F :=
  { a with alpha := 0, active := false, triggerAt := -1, triggered := false }

/-- Member function `Animation::init`. -/
def Animation.init (a : Animation F) : Animation F :=
  Animation.reset { a with duration := 1 }

/-- Member function `Animation::clearCallbacks`. -/
def Animation.clearCallbacks (a : Animation F) : Animation F :=
  { a with onStartCallbacks := [], onEndCallbacks := [] }

/-- Member function `Animation::elapsedTime`; the product is rounded into `T`. -/
def Animation.elapsedTime (fl : ℚ → ℚ) (a : Animation F) : ℚ :=
  fl (a.alpha * a.duration)

/-- Member function `Animation::onStart`: `push_back` on the start vector. -/
def Animation.onStart (a : Animation F) (f : F) : Animation F :=
  { a with onStartCallbacks := a.onStartCallbacks ++ [f] }

/-- Member function `Animation::onEnd`: `push_back` on the end vector. -/
def Animation.onEnd (a : Animation F) (f : F) : Animation F :=
  { a with onEndCallbacks := a.onEndCallbacks ++ [f] }

/-- The loop `for (auto & f : v) { f(); }` over a callback vector `v`. -/
def invokeAll (call : F → W → Option W) : List F → W → Option W
  | [], w => some w
  | f :: fs, w => (call f w).bind (invokeAll call fs)

/-- Member function `Animation::start` on the object behind `r`. -/
def Animation.start (call : F → W → Option W) (r : Ref W F) (w : W) : Option W :=
  let w := r.set (r.get w).reset w
  let w := r.set { r.get w with active := true } w
  invokeAll call (r.get w).onStartCallbacks w

/-- The guard of the scheduled trigger in `Animation::update`:
`triggerAt >= 0 && !triggered && t >= triggerAt`. -/
def Animation.fires (a : Animation F) (t : ℚ) : Prop :=
  a.triggerAt ≥ 0 ∧ a.triggered = false ∧ t ≥ a.triggerAt

instance (a : Animation F) (t : ℚ) : Decidable (a.fires t) := by
  unfold Animation.fires; infer_instance

/-- Member function `Animation::update` on the object behind `r`; the quotient and the
sum of `alpha += dt / duration` are each rounded into `T`. -/
def Animation.update (fl : ℚ → ℚ) (call : F → W → Option W) (r : Ref W F) (dt t : ℚ)
    (w : W) : Option W :=
  (if (r.get w).fires t then
      (Animation.start call r w).map fun w => r.set { r.get w with triggered := true } w
    else some w).bind fun w =>
  if (r.get w).active = false then some w
  else
    let w := r.set { r.get w with
      alpha := fl ((r.get w).alpha + fl (dt / (r.get w).duration)) } w
    if (r.get w).alpha > 1 then
      let w := r.set { r.get w with active := false } w
      let w := r.set { r.get w with alpha := 1 } w
      invokeAll call (r.get w).onEndCallbacks w
    else some w

end Core

/-! ## One animation whose callbacks do not touch it -/

/-- One `Animation` together with the rest of the program state `E`, on which its
callbacks act. -/
structure Solo (F E : Type) where
  anim : Animation F
  env : E

section SoloWorld

variable {F E : Type}

/-- The animation of a `Solo` state. -/
def Solo.ref : Ref (Solo F E) F where
  get := fun w => w.anim
  set := fun a w => { w with anim := a }

/-- Invoking a callback that does not modify the animation itself: it acts on the
rest of the state through `act`. -/
def Solo.call (act : F → E → E) (f : F) (w : Solo F E) : Option (Solo F E) :=
  some { w with env := act f w.env }

/-- The effect on the environment of invoking every callback of `fs` once, in order. -/
def runAll (act : F → E → E) (fs : List F) (e : E) : E :=
  fs.foldl (fun e f => act f e) e

/-- The call `reset()` on the animation of a `Solo` state. -/
def Solo.reset (w : Solo F E) : Solo F E :=
  { w with anim := w.anim.reset }

/-- The call `start()` on the animation of a `Solo` state. -/
def Solo.start (act : F → E → E) (w : Solo F E) : Option (Solo F E) :=
  Animation.start (Solo.call act) Solo.ref w

/-- The call `update(dt, t)` on the animation of a `Solo` state. -/
def Solo.update (fl : ℚ → ℚ) (act : F → E → E) (dt t : ℚ) (w : Solo F E) :
    Option (Solo F E) :=
  Animation.update fl (Solo.call act) Solo.ref dt t w

/-- A sequence of `update(dt, t)` calls, given as the list of `(dt, t)` pairs. -/
def Solo.updates (fl : ℚ → ℚ) (act : F → E → E) :
    List (ℚ × ℚ) → Solo F E → Option (Solo F E)
  | [], w => some w
  | u :: us, w => (Solo.update fl act u.1 u.2 w).bind (Solo.updates fl act us)

/-- The sum of the `dt` of a list of `(dt, t)` pairs. -/
def totalDt (us : List (ℚ × ℚ)) : ℚ :=
  (us.map Prod.fst).sum

/-- The running sum that the statements `alpha += dt / duration` of a list of updates
compute in `T` from the value `a`, when nothing clamps it: each quotient and each sum
is rounded. -/
def accumulate (fl : ℚ → ℚ) (d : ℚ) (a : ℚ) (us : List (ℚ × ℚ)) : ℚ :=
  us.foldl (fun a u => fl (a + fl (u.1 / d))) a

/-- What a caller may do with one animation: the three member functions and the two
assignments `duration = d`, `triggerAt = tau` that `main` and the `init` functions make. -/
inductive SoloOp where
  | reset
  | start
  | update (dt t : ℚ)
  | setDuration (d : ℚ)
  | setTriggerAt (tau : ℚ)

/-- Run one operation. -/
def Solo.apply (fl : ℚ → ℚ) (act : F → E → E) (w : Solo F E) :
    SoloOp → Option (Solo F E)
  | .reset => some w.reset
  | .start => Solo.start act w
  | .update dt t => Solo.update fl act dt t w
  | .setDuration d => some { w with anim := { w.anim with duration := d } }
  | .setTriggerAt tau => some { w with anim := { w.anim with triggerAt := tau } }

/-- Run a sequence of operations. -/
def Solo.run (fl : ℚ → ℚ) (act : F → E → E) :
    List SoloOp → Solo F E → Option (Solo F E)
  | [], w => some w
  | o :: os, w => (Solo.apply fl act w o).bind (Solo.run fl act os)

/-- The operations the alpha invariant is stated for: `dt ≥ 0` in every update and
only positive durations assigned. -/
def SoloOp.Admissible : SoloOp → Prop
  | .update dt _ => 0 ≤ dt
  | .setDuration d => 0 < d
  | _ => True

end SoloWorld

/-! ## Shaker -/

/-- The two lambdas registered in `Shaker::init`. -/
inductive ShakerFn where
  | ofsCycleOnStart
  | ofsCycleOnEnd
  deriving DecidableEq

/-- The members of `struct Shaker`, and `randCalls`, the number of `rand()` calls made
so far (the state of the C library generator). -/
structure Shaker where
  ofsCycle : Animation ShakerFn
  fullShake : Animation ShakerFn
  xmag : ℚ
  ymag : ℚ
  xofs : ℚ
  yofs : ℚ
  randCalls : ℕ

/-- The C library and the arithmetic of `double` as `Shaker` uses them: `pow25 x`
stands for `pow(x, 2.5)`, `rand01 k` for the value of `rand() * 1.0 / RAND_MAX` at the
`k`-th call of `rand()` (both of type `double`), and `dbl` for the rounding of an
arithmetic operation of type `double`. -/
structure Libc where
  pow25 : ℚ → ℚ
  rand01 : ℕ → ℚ
  dbl : ℚ → ℚ

/-- The member `Shaker::ofsCycle`. -/
def Shaker.ofsCycleRef : Ref Shaker ShakerFn where
  get := fun s => s.ofsCycle
  set := fun a s => { s with ofsCycle := a }

/-- The member `Shaker::fullShake`. -/
def Shaker.fullShakeRef : Ref Shaker ShakerFn where
  get := fun s => s.fullShake
  set := fun a s => { s with fullShake := a }

/-- The value that the start lambda of `Shaker::init` assigns to `xofs` (and to `yofs`):
`(r * 2 * mag - mag) * a` for `r = rand() * 1.0 / RAND_MAX`, the two products, the
difference and the product with `a` being operations of `double`, and the result
rounded into `float` on the assignment. -/
def Shaker.offset (c : Libc) (fl : ℚ → ℚ) (r mag a : ℚ) : ℚ :=
  fl (c.dbl (c.dbl (c.dbl (c.dbl (r * 2) * mag) - mag) * a))

/-- The bodies of the two lambdas of `Shaker::init`; the fuel bounds the depth of
nested callback invocations. The difference `1 - fullShake.alpha` is rounded into
`float`, and so is the `double` value of `pow` on its assignment to the `float`
variable `a`. -/
def Shaker.call (c : Libc) (fl : ℚ → ℚ) : ℕ → ShakerFn → Shaker → Option Shaker
  | 0, _, _ => none
  | _ + 1, .ofsCycleOnStart, s =>
    let a := fl (c.pow25 (fl (1 - s.fullShake.alpha)))
    let s := { s with xofs := Shaker.offset c fl (c.rand01 s.randCalls) s.xmag a,
                      randCalls := s.randCalls + 1 }
    let s := { s with yofs := Shaker.offset c fl (c.rand01 s.randCalls) s.ymag a,
                      randCalls := s.randCalls + 1 }
    some s
  | n + 1, .ofsCycleOnEnd, s =>
    let s := { s with xofs := 0 }
    let s := { s with yofs := 0 }
    if s.fullShake.active then
      let s := { s with ofsCycle := s.ofsCycle.reset }
      Animation.start (Shaker.call c fl n) Shaker.ofsCycleRef s
    else some s

/-- A `Shaker` object as constructed: the default member initialisers
(`xmag = ymag = 15`, `xofs = yofs = 0`) and empty callback vectors; the scalar members
of the two animations are not initialised by the constructor and are taken from
`o` and `f`. -/
def Shaker.new (o f : Animation ShakerFn) (randCalls : ℕ) : Shaker where
  ofsCycle := o.clearCallbacks
  fullShake := f.clearCallbacks
  xmag := 15
  ymag := 15
  xofs := 0
  yofs := 0
  randCalls := randCalls

/-- Member function `Shaker::init`; the constants `0.5` and `0.025` are rounded into
`float`. -/
def Shaker.init (fl : ℚ → ℚ) (s : Shaker) : Shaker :=
  let s := { s with fullShake := { s.fullShake with duration := fl (1 / 2) } }
  let s := { s with ofsCycle := { s.ofsCycle with duration := fl (1 / 40) } }
  let s := { s with ofsCycle := s.ofsCycle.onStart .ofsCycleOnStart }
  let s := { s with ofsCycle := s.ofsCycle.onEnd .ofsCycleOnEnd }
  s

/-- Member function `Shaker::shake`. -/
def Shaker.shake (c : Libc) (fl : ℚ → ℚ) (fuel : ℕ) (s : Shaker) : Option Shaker :=
  let s := { s with fullShake := s.fullShake.reset }
  let s := { s with ofsCycle := s.ofsCycle.reset }
  (Animation.start (Shaker.call c fl fuel) Shaker.fullShakeRef s).bind fun s =>
  Animation.start (Shaker.call c fl fuel) Shaker.ofsCycleRef s

/-- Member function `Shaker::update`. -/
def Shaker.update (c : Libc) (fl : ℚ → ℚ) (fuel : ℕ) (dt t : ℚ) (s : Shaker) :
    Option Shaker :=
  (Animation.update fl (Shaker.call c fl fuel) Shaker.fullShakeRef dt t s).bind fun s =>
  Animation.update fl (Shaker.call c fl fuel) Shaker.ofsCycleRef dt t s

/-- A call made on a `Shaker` after its first `shake()`. -/
inductive ShakerOp where
  | shake
  | update (dt t : ℚ)

/-- Run one call. -/
def Shaker.apply (c : Libc) (fl : ℚ → ℚ) (fuel : ℕ) (s : Shaker) :
    ShakerOp → Option Shaker
  | .shake => Shaker.shake c fl fuel s
  | .update dt t => Shaker.update c fl fuel dt t s

/-- Run a sequence of calls. -/
def Shaker.run (c : Libc) (fl : ℚ → ℚ) (fuel : ℕ) :
    List ShakerOp → Shaker → Option Shaker
  | [], s => some s
  | o :: os, s => (Shaker.apply c fl fuel s o).bind (Shaker.run c fl fuel os)

/-- The calls `init()`, a first `shake()`, then the calls `ops`, on a new `Shaker`. -/
def Shaker.session (c : Libc) (fl : ℚ → ℚ) (fuel : ℕ) (o f : Animation ShakerFn)
    (randCalls : ℕ) (ops : List ShakerOp) : Option Shaker :=
  (Shaker.shake c fl fuel ((Shaker.new o f randCalls).init fl)).bind
    (Shaker.run c fl fuel ops)

/-! ## MusicPlayer -/

/-- Modelled from the spec: the streamed music track of the audio subsystem, "with
adjustable volume and play/stop/playing-state query" (raylib `Music`, not part of the
sources); its volume and its playing flag are the state. -/
structure Music where
  playing : Bool
  volume : ℚ

/-- Modelled from the spec: stop playback (raylib `StopMusicStream`). -/
def StopMusicStream (m : Music) : Music :=
  { m with playing := false }

/-- Modelled from the spec: start playback (raylib `PlayMusicStream`). -/
def PlayMusicStream (m : Music) : Music :=
  { m with playing := true }

/-- Modelled from the spec: set the playback volume (raylib `SetMusicVolume`). -/
def SetMusicVolume (m : Music) (v : ℚ) : Music :=
  { m with volume := v }

/-- Modelled from the spec: the playing-state query (raylib `IsMusicStreamPlaying`). -/
def IsMusicStreamPlaying (m : Music) : Bool :=
  m.playing

/-- Modelled from the spec: refill the stream buffers (raylib `UpdateMusicStream`);
neither the volume nor the playing flag of the looping track changes. -/
def UpdateMusicStream (m : Music) : Music :=
  m

/-- The lambda registered in `MusicPlayer::init`. -/
inductive MusicFn where
  | fadingOnEnd
  deriving DecidableEq

/-- The members of `struct MusicPlayer`. -/
structure MusicPlayer where
  music : Music
  fading : Animation MusicFn

/-- The member `MusicPlayer::fading`. -/
def MusicPlayer.fadingRef : Ref MusicPlayer MusicFn where
  get := fun p => p.fading
  set := fun a p => { p with fading := a }

/-- Member function `MusicPlayer::stop`. -/
def MusicPlayer.stop (p : MusicPlayer) : MusicPlayer :=
  { p with music := StopMusicStream p.music }

/-- The body of the lambda of `MusicPlayer::init`: `[&]() { stop(); }`. -/
def MusicPlayer.call : MusicFn → MusicPlayer → Option MusicPlayer
  | .fadingOnEnd, p => some p.stop

/-- Member function `MusicPlayer::init`. -/
def MusicPlayer.init (p : MusicPlayer) : MusicPlayer :=
  let p := { p with fading := p.fading.init }
  let p := { p with fading := { p.fading with duration := 1 } }
  let p := { p with fading := p.fading.onEnd .fadingOnEnd }
  p

/-- Member function `MusicPlayer::reset`. -/
def MusicPlayer.reset (p : MusicPlayer) : MusicPlayer :=
  let p := { p with music := StopMusicStream p.music }
  let p := { p with music := SetMusicVolume p.music 1 }
  let p := { p with fading := p.fading.reset }
  p

/-- Member function `MusicPlayer::start`. -/
def MusicPlayer.start (p : MusicPlayer) : MusicPlayer :=
  let p := p.reset
  { p with music := PlayMusicStream p.music }

/-- Member function `MusicPlayer::playing`. -/
def MusicPlayer.playing (p : MusicPlayer) : Bool :=
  IsMusicStreamPlaying p.music

/-- Member function `MusicPlayer::fade`. -/
def MusicPlayer.fade (p : MusicPlayer) : Option MusicPlayer :=
  Animation.start MusicPlayer.call MusicPlayer.fadingRef p

/-- Member function `MusicPlayer::update`; the difference `1 - fading.alpha` is
rounded into `float`. -/
def MusicPlayer.update (fl : ℚ → ℚ) (dt t : ℚ) (p : MusicPlayer) : Option MusicPlayer :=
  let p := { p with music := UpdateMusicStream p.music }
  (Animation.update fl MusicPlayer.call MusicPlayer.fadingRef dt t p).map fun p =>
  if p.fading.active then
    { p with music := SetMusicVolume p.music (fl (1 - p.fading.alpha)) }
  else p

/-- A sequence of `update(dt, t)` calls on a `MusicPlayer`. -/
def MusicPlayer.updates (fl : ℚ → ℚ) : List (ℚ × ℚ) → MusicPlayer → Option MusicPlayer
  | [], p => some p
  | u :: us, p => (MusicPlayer.update fl u.1 u.2 p).bind (MusicPlayer.updates fl us)

/-- A newly constructed `MusicPlayer`: an empty end vector on `fading`; the other
members are whatever `music` and `fading` hold. -/
def MusicPlayer.new (music : Music) (fading : Animation MusicFn) : MusicPlayer where
  music := music
  fading := fading.clearCallbacks

/-- The calls `init()`, `start()`, `fade()`, then the updates `us`, on a new `MusicPlayer`. -/
def MusicPlayer.fadeOut (fl : ℚ → ℚ) (music : Music) (fading : Animation MusicFn)
    (us : List (ℚ × ℚ)) : Option MusicPlayer :=
  (MusicPlayer.fade (MusicPlayer.new music fading).init.start).bind
    (MusicPlayer.updates fl us)

/-! ## A chained pair of animations -/

/-- The two animations of a chained pair. -/
inductive Side where
  | A
  | B
  deriving DecidableEq

/-- The callbacks of a chained pair: `A.onEnd([&]() { B.start(); })` and
`B.onEnd([&]() { A.start(); })`, and on each start vector an observer that records
the start event (it touches neither animation). -/
inductive PairFn where
  | aOnStart
  | bOnStart
  | aOnEnd
  | bOnEnd
  deriving DecidableEq

/-- Two animations and the record of the start events seen so far, oldest first. -/
structure Pair where
  A : Animation PairFn
  B : Animation PairFn
  starts : List Side

/-- The animation `A`. -/
def Pair.refA : Ref Pair PairFn where
  get := fun w => w.A
  set := fun a w => { w with A := a }

/-- The animation `B`. -/
def Pair.refB : Ref Pair PairFn where
  get := fun w => w.B
  set := fun a w => { w with B := a }

/-- The bodies of the callbacks of a chained pair; the fuel bounds the depth of nested
callback invocations. -/
def Pair.call : ℕ → PairFn → Pair → Option Pair
  | 0, _, _ => none
  | _ + 1, .aOnStart, w => some { w with starts := w.starts ++ [Side.A] }
  | _ + 1, .bOnStart, w => some { w with starts := w.starts ++ [Side.B] }
  | n + 1, .aOnEnd, w => Animation.start (Pair.call n) Pair.refB w
  | n + 1, .bOnEnd, w => Animation.start (Pair.call n) Pair.refA w

/-- Two newly constructed animations (`a`, `b` give their uninitialised scalar
members), `init()` on both, durations `dA` and `dB`, the wiring, then `A.start()`. -/
def Pair.setup (fuel : ℕ) (dA dB : ℚ) (a b : Animation PairFn) : Option Pair :=
  let w : Pair := { A := a.clearCallbacks, B := b.clearCallbacks, starts := [] }
  let w := { w with A := w.A.init }
  let w := { w with B := w.B.init }
  let w := { w with A := { w.A with duration := dA } }
  let w := { w with B := { w.B with duration := dB } }
  let w := { w with A := w.A.onStart .aOnStart }
  let w := { w with B := w.B.onStart .bOnStart }
  let w := { w with A := w.A.onEnd .aOnEnd }
  let w := { w with B := w.B.onEnd .bOnEnd }
  Animation.start (Pair.call fuel) Pair.refA w

/-- One frame: `A.update(dt, t); B.update(dt, t);`. -/
def Pair.frame (fl : ℚ → ℚ) (fuel : ℕ) (dt t : ℚ) (w : Pair) : Option Pair :=
  (Animation.update fl (Pair.call fuel) Pair.refA dt t w).bind fun w =>
  Animation.update fl (Pair.call fuel) Pair.refB dt t w

/-- A sequence of frames, given as the list of `(dt, t)` pairs. -/
def Pair.frames (fl : ℚ → ℚ) (fuel : ℕ) : List (ℚ × ℚ) → Pair → Option Pair
  | [], w => some w
  | u :: us, w => (Pair.frame fl fuel u.1 u.2 w).bind (Pair.frames fl fuel us)

/-- The alternating sequence `A, B, A, B, ...` of length `n`. -/
def alternating : ℕ → List Side
  | 0 => []
  | n + 1 => alternating n ++ [if n % 2 = 0 then Side.A else Side.B]

/-! ## Kittens and Mouse as wired in `main` -/

/-- The five lambdas registered in `main`. -/
inductive SceneFn where
  | leftLookOnStart
  | rightLookOnStart
  | leftLookOnEnd
  | rightLookOnEnd
  | jumpCycleOnEnd
  deriving DecidableEq

/-- The members of `struct Kittens` that its animations drive (the texture vectors
`frames`, `frameLoaded` belong to the renderer and are left out). -/
structure Kittens where
  curFrame : ℤ
  preFrame : ℤ
  leftLook : Animation SceneFn
  rightLook : Animation SceneFn
  dir : ℤ

/-- The members of `struct Mouse` that its animations drive (the sprite position `x`
and `curFrame`, computed with `sin` for the renderer, and the textures are left out). -/
structure Mouse where
  dir : ℤ
  seqTurn : ℤ
  leftWalk : Animation SceneFn
  rightWalk : Animation SceneFn
  jumpCycle : Animation SceneFn

/-- The objects `kittens` and `mouse` of `main`. -/
structure Scene where
  kittens : Kittens
  mouse : Mouse

/-- The member `kittens.leftLook`. -/
def Scene.leftLookRef : Ref Scene SceneFn where
  get := fun w => w.kittens.leftLook
  set := fun a w => { w with kittens := { w.kittens with leftLook := a } }

/-- The member `kittens.rightLook`. -/
def Scene.rightLookRef : Ref Scene SceneFn where
  get := fun w => w.kittens.rightLook
  set := fun a w => { w with kittens := { w.kittens with rightLook := a } }

/-- The member `mouse.leftWalk`. -/
def Scene.leftWalkRef : Ref Scene SceneFn where
  get := fun w => w.mouse.leftWalk
  set := fun a w => { w with mouse := { w.mouse with leftWalk := a } }

/-- The member `mouse.rightWalk`. -/
def Scene.rightWalkRef : Ref Scene SceneFn where
  get := fun w => w.mouse.rightWalk
  set := fun a w => { w with mouse := { w.mouse with rightWalk := a } }

/-- The member `mouse.jumpCycle`. -/
def Scene.jumpCycleRef : Ref Scene SceneFn where
  get := fun w => w.mouse.jumpCycle
  set := fun a w => { w with mouse := { w.mouse with jumpCycle := a } }

/-- The bodies of the five lambdas of `main`; the fuel bounds the depth of nested
callback invocations. -/
def Scene.call : ℕ → SceneFn → Scene → Option Scene
  | 0, _, _ => none
  | n + 1, .leftLookOnStart, w => Animation.start (Scene.call n) Scene.leftWalkRef w
  | n + 1, .rightLookOnStart, w => Animation.start (Scene.call n) Scene.rightWalkRef w
  | n + 1, .leftLookOnEnd, w => Animation.start (Scene.call n) Scene.rightLookRef w
  | n + 1, .rightLookOnEnd, w => Animation.start (Scene.call n) Scene.leftLookRef w
  | n + 1, .jumpCycleOnEnd, w =>
    let w := { w with mouse := { w.mouse with seqTurn := 1 - w.mouse.seqTurn } }
    Animation.start (Scene.call n) Scene.jumpCycleRef w

/-- Conversion of a `float` to `int`: truncation toward zero. -/
def truncToInt (x : ℚ) : ℤ :=
  if 0 ≤ x then ⌊x⌋ else ⌈x⌉

/-- Member function `Kittens::init`. -/
def Kittens.init (k : Kittens) : Kittens :=
  let k := { k with curFrame := 0 }
  let k := { k with preFrame := -1 }
  let k := { k with leftLook := k.leftLook.init }
  let k := { k with rightLook := k.rightLook.init }
  let k := { k with rightLook := { k.rightLook with duration := 8 } }
  let k := { k with leftLook := { k.leftLook with duration := k.rightLook.duration } }
  { k with dir := -1 }

/-- Member function `Mouse::init`, without the textures and the screen coordinates;
the constant `0.5` is rounded into `float`. -/
def Mouse.init (fl : ℚ → ℚ) (m : Mouse) : Mouse :=
  let m := { m with dir := -1 }
  let m := { m with seqTurn := 0 }
  let m := { m with leftWalk := m.leftWalk.init }
  let m := { m with rightWalk := m.rightWalk.init }
  let m := { m with jumpCycle := m.jumpCycle.init }
  let m := { m with rightWalk := { m.rightWalk with duration := 8 } }
  let m := { m with leftWalk := { m.leftWalk with duration := m.rightWalk.duration } }
  { m with jumpCycle := { m.jumpCycle with duration := fl (1 / 2) } }

/-- Member function `Kittens::update`: the two animation updates and the frame index
(texture loading left out). -/
def Kittens.update (fl : ℚ → ℚ) (fuel : ℕ) (dt t : ℚ) (w : Scene) : Option Scene :=
  (Animation.update fl (Scene.call fuel) Scene.leftLookRef dt t w).bind fun w =>
  (Animation.update fl (Scene.call fuel) Scene.rightLookRef dt t w).map fun w =>
  let k := w.kittens
  let k :=
    if k.leftLook.active then
      { k with curFrame := truncToInt (fl (12 + fl (k.leftLook.alpha * 62))) }
    else if k.rightLook.active then
      { k with curFrame := truncToInt (fl (12 + fl (fl (1 - k.rightLook.alpha) * 62))) }
    else k
  { w with kittens := { k with preFrame := k.curFrame } }

/-- Member function `Mouse::update`: the three animation updates and the direction
(sprite frame and position left out). -/
def Mouse.update (fl : ℚ → ℚ) (fuel : ℕ) (dt t : ℚ) (w : Scene) : Option Scene :=
  (Animation.update fl (Scene.call fuel) Scene.leftWalkRef dt t w).bind fun w =>
  (Animation.update fl (Scene.call fuel) Scene.rightWalkRef dt t w).bind fun w =>
  (Animation.update fl (Scene.call fuel) Scene.jumpCycleRef dt t w).map fun w =>
  if w.mouse.leftWalk.active then
    { w with mouse := { w.mouse with dir := -1 } }
  else if w.mouse.rightWalk.active then
    { w with mouse := { w.mouse with dir := 1 } }
  else w

/-- The part of `main` before the frame loop: newly constructed objects (`k`, `m`
give their uninitialised scalar members), `mouse.init`, `kittens.init`, the five
callback registrations, `mouse.jumpCycle.triggerAt = 0.55` (rounded into `float`),
`kittens.leftLook.start()`. -/
def Scene.setup (fl : ℚ → ℚ) (fuel : ℕ) (k : Kittens) (m : Mouse) : Option Scene :=
  let m := { m with leftWalk := m.leftWalk.clearCallbacks,
                    rightWalk := m.rightWalk.clearCallbacks,
                    jumpCycle := m.jumpCycle.clearCallbacks }
  let k := { k with leftLook := k.leftLook.clearCallbacks,
                    rightLook := k.rightLook.clearCallbacks }
  let m := m.init fl
  let k := k.init
  let k := { k with leftLook := k.leftLook.onStart .leftLookOnStart }
  let k := { k with rightLook := k.rightLook.onStart .rightLookOnStart }
  let k := { k with leftLook := k.leftLook.onEnd .leftLookOnEnd }
  let k := { k with rightLook := k.rightLook.onEnd .rightLookOnEnd }
  let m := { m with jumpCycle := m.jumpCycle.onEnd .jumpCycleOnEnd }
  let m := { m with jumpCycle := { m.jumpCycle with triggerAt := fl (11 / 20) } }
  Animation.start (Scene.call fuel) Scene.leftLookRef { kittens := k, mouse := m }

/-- One iteration of the frame loop of `main`, as far as `kittens` and `mouse` go:
`kittens.update(dt, t)` and then `mouse.update(dt, t)`. -/
def Scene.frame (fl : ℚ → ℚ) (fuel : ℕ) (dt t : ℚ) (w : Scene) : Option Scene :=
  (Kittens.update fl fuel dt t w).bind (Mouse.update fl fuel dt t)

/-- A sequence of frames, given as the list of `(dt, t)` pairs. -/
def Scene.frames (fl : ℚ → ℚ) (fuel : ℕ) : List (ℚ × ℚ) → Scene → Option Scene
  | [], w => some w
  | u :: us, w => (Scene.frame fl fuel u.1 u.2 w).bind (Scene.frames fl fuel us)

/-- The player while fading, at volume `v` and progress `s`. -/
def MusicPlayer.during (v s : ℚ) : MusicPlayer where
  music := { playing := true, volume := v }
  fading := { alpha := s, duration := 1, triggerAt := -1, triggered := false,
              active := true, onStartCallbacks := [], onEndCallbacks := [.fadingOnEnd] }

/-- The player once faded out, its volume left at `v`. -/
def MusicPlayer.faded (v : ℚ) : MusicPlayer where
  music := { playing := false, volume := v }
  fading := { alpha := 1, duration := 1, triggerAt := -1, triggered := false,
              active := false, onStartCallbacks := [], onEndCallbacks := [.fadingOnEnd] }

/-- The callback vectors as `Shaker::init` leaves them, and no trigger scheduled. -/
def Shaker.Wired (s : Shaker) : Prop :=
  s.ofsCycle.onStartCallbacks = [.ofsCycleOnStart] ∧
  s.ofsCycle.onEndCallbacks = [.ofsCycleOnEnd] ∧
  s.fullShake.onStartCallbacks = [] ∧ s.fullShake.onEndCallbacks = [] ∧
  s.ofsCycle.triggerAt = -1 ∧ s.fullShake.triggerAt = -1

/-- The states of a run: `s0` is the state after `init()`, the first `shake()` and the
first `m` calls of `ops`, for some `m`. -/
def Shaker.Seen (c : Libc) (fl : ℚ → ℚ) (fuel : ℕ) (o f : Animation ShakerFn) (k : ℕ)
    (ops : List ShakerOp) (s0 : Shaker) : Prop :=
  ∃ m, m ≤ ops.length ∧ Shaker.session c fl fuel o f k (ops.take m) = some s0

/-- The invariant of a `Shaker` after `init()` and a first `shake()`, `H` being the set
of the states of the run so far: the wiring and the constants of `init`,
`fullShake.alpha ≤ 1`, a zero offset while `ofsCycle` is idle, and, while `ofsCycle`
runs, the offset is the one of a state `s0` of the run in which `ofsCycle` had just been
started, `fullShake` being active with `alpha = a ≤ 1`: the one drawn by its start
callback at `a` from the `rand()` calls `j` and `j + 1`. In exact arithmetic moreover
`fullShake.alpha = a + ofsCycle.alpha / 20` while `fullShake` runs, and `a > 19/20` once
it has completed. -/
def Shaker.Inv (c : Libc) (fl : ℚ → ℚ) (H : Shaker → Prop) (s : Shaker) : Prop :=
  s.Wired ∧ s.xmag = 15 ∧ s.ymag = 15 ∧
  s.fullShake.duration = fl (1 / 2) ∧ s.ofsCycle.duration = fl (1 / 40) ∧
  s.fullShake.alpha ≤ 1 ∧
  (s.ofsCycle.active = false → s.xofs = 0 ∧ s.yofs = 0) ∧
  (s.ofsCycle.active = true → ∃ a j s0, H s0 ∧
    s0.fullShake.active = true ∧ s0.fullShake.alpha = a ∧ s0.ofsCycle.alpha = 0 ∧
    s0.xofs = s.xofs ∧ s0.yofs = s.yofs ∧ a ≤ 1 ∧
    s.xofs = Shaker.offset c fl (c.rand01 j) 15 (fl (c.pow25 (fl (1 - a)))) ∧
    s.yofs = Shaker.offset c fl (c.rand01 (j + 1)) 15 (fl (c.pow25 (fl (1 - a)))) ∧
    ((∀ x, fl x = x) →
      s.ofsCycle.alpha ≤ 1 ∧
      (s.fullShake.active = true → s.fullShake.alpha = a + s.ofsCycle.alpha / 20) ∧
      (s.fullShake.active = false → 19 / 20 < a)))

/-- A C library for concrete runs: `pow25 x = x * x * √x`, which is `pow(x, 2.5)`
exactly when `x` is the square of a rational, `rand()` always returning `RAND_MAX`, and
the operations of `double` without rounding error, as they are on the values of the
runs below (`2`, `30`, `15` and `15 * 2⁻¹⁵`). -/
def Libc.demo : Libc where
  pow25 := fun x => x * x * Rat.sqrt x
  rand01 := fun _ => 1
  dbl := fun x => x

/-- The callback vectors as `Pair.setup` leaves them, and no trigger scheduled. -/
def Pair.Wired (w : Pair) : Prop :=
  w.A.onStartCallbacks = [.aOnStart] ∧ w.A.onEndCallbacks = [.aOnEnd] ∧
  w.B.onStartCallbacks = [.bOnStart] ∧ w.B.onEndCallbacks = [.bOnEnd] ∧
  w.A.triggerAt = -1 ∧ w.B.triggerAt = -1

/-- Exactly one of the two animations is active, and the start events so far are
`A, B, A, ...`, the last of them that of the active animation. -/
def Pair.Alternates (w : Pair) : Prop :=
  ∃ m, w.starts = alternating (m + 1) ∧
    ((m % 2 = 0 ∧ w.A.active = true ∧ w.B.active = false) ∨
     (m % 2 = 1 ∧ w.A.active = false ∧ w.B.active = true))

/-- The callback vectors as `main` leaves them, the duration `8` of the look and walk
animations, and no trigger scheduled on them. -/
def Scene.Wired (w : Scene) : Prop :=
  (w.kittens.leftLook.onStartCallbacks = [.leftLookOnStart] ∧
   w.kittens.leftLook.onEndCallbacks = [.leftLookOnEnd] ∧
   w.kittens.rightLook.onStartCallbacks = [.rightLookOnStart] ∧
   w.kittens.rightLook.onEndCallbacks = [.rightLookOnEnd]) ∧
  (w.mouse.leftWalk.onStartCallbacks = [] ∧ w.mouse.leftWalk.onEndCallbacks = [] ∧
   w.mouse.rightWalk.onStartCallbacks = [] ∧ w.mouse.rightWalk.onEndCallbacks = []) ∧
  (w.mouse.jumpCycle.onStartCallbacks = [] ∧
   w.mouse.jumpCycle.onEndCallbacks = [.jumpCycleOnEnd]) ∧
  (w.kittens.leftLook.triggerAt = -1 ∧ w.kittens.rightLook.triggerAt = -1 ∧
   w.mouse.leftWalk.triggerAt = -1 ∧ w.mouse.rightWalk.triggerAt = -1) ∧
  (w.kittens.leftLook.duration = 8 ∧ w.kittens.rightLook.duration = 8 ∧
   w.mouse.leftWalk.duration = 8 ∧ w.mouse.rightWalk.duration = 8)

/-- The walk animations follow the look animations: one look animation is active,
the walk animation of the other direction is not, and the walk animation of the same
direction, while active, is at least as far as the look animation. -/
def Scene.Follows (w : Scene) : Prop :=
  (w.kittens.leftLook.active = true ∧ w.kittens.rightLook.active = false ∧
   w.mouse.rightWalk.active = false ∧
   (w.mouse.leftWalk.active = true → w.kittens.leftLook.alpha ≤ w.mouse.leftWalk.alpha)) ∨
  (w.kittens.leftLook.active = false ∧ w.kittens.rightLook.active = true ∧
   w.mouse.leftWalk.active = false ∧
   (w.mouse.rightWalk.active = true → w.kittens.rightLook.alpha ≤ w.mouse.rightWalk.alpha))

/-! ## Concrete inputs -/

/-- A newly constructed animation whose scalar members happen to be zero. -/
def Animation.zeroed (F : Type) : Animation F where
  alpha := 0
  duration := 0
  triggerAt := 0
  triggered := false
  active := false
  onStartCallbacks := []
  onEndCallbacks := []

/-- An environment that records the callbacks invoked, oldest first. -/
def record (f : ℕ) (log : List ℕ) : List ℕ :=
  log ++ [f]

/-- An animation in the middle of a run (`alpha = 0.7`, `duration = 1`) with the start
callbacks `0, 1` and the end callbacks `2, 3`. -/
def Solo.midRun : Solo ℕ (List ℕ) where
  anim := { alpha := 7 / 10, duration := 1, triggerAt := -1, triggered := false,
            active := true, onStartCallbacks := [0, 1], onEndCallbacks := [2, 3] }
  env := []

/-- The animation `Solo.midRun` once started (its start callbacks `0, 1` recorded), at
the progress `a`. -/
def Solo.runningAt (a : ℚ) : Solo ℕ (List ℕ) where
  anim := { alpha := a, duration := 1, triggerAt := -1, triggered := false,
            active := true, onStartCallbacks := [0, 1], onEndCallbacks := [2, 3] }
  env := [0, 1]

/-- An idle animation with `duration = 1` and a trigger scheduled at `tau`. -/
def Solo.scheduled (tau : ℚ) : Solo ℕ (List ℕ) where
  anim := { alpha := 0, duration := 1, triggerAt := tau, triggered := false,
            active := false, onStartCallbacks := [0, 1], onEndCallbacks := [2, 3] }
  env := []

/-- A newly constructed `Kittens` whose members happen to be zero. -/
def Kittens.zeroed : Kittens where
  curFrame := 0
  preFrame := 0
  leftLook := Animation.zeroed SceneFn
  rightLook := Animation.zeroed SceneFn
  dir := 0

/-- A newly constructed `Mouse` whose members happen to be zero. -/
def Mouse.zeroed : Mouse where
  dir := 0
  seqTurn := 0
  leftWalk := Animation.zeroed SceneFn
  rightWalk := Animation.zeroed SceneFn
  jumpCycle := Animation.zeroed SceneFn

/-! ## The rounding of binary32 -/

theorem roundEven_floor_le (y : ℚ) : ⌊y⌋ ≤ roundEven y := by
  unfold roundEven
  split_ifs <;> omega

theorem roundEven_le_floor_succ (y : ℚ) : roundEven y ≤ ⌊y⌋ + 1 := by
  unfold roundEven
  split_ifs <;> omega

theorem roundEven_intCast (m : ℤ) : roundEven (m : ℚ) = m := by
  simp [roundEven]

theorem roundEven_mono {y z : ℚ} (h : y ≤ z) : roundEven y ≤ roundEven z := by
  have hfl : ⌊y⌋ ≤ ⌊z⌋ := Int.floor_mono h
  rcases hfl.lt_or_eq with hlt | heq
  · calc roundEven y ≤ ⌊y⌋ + 1 := roundEven_le_floor_succ y
      _ ≤ ⌊z⌋ := hlt
      _ ≤ roundEven z := roundEven_floor_le z
  · have hyz : y - ⌊y⌋ ≤ z - ⌊z⌋ := by rw [heq]; linarith
    unfold roundEven
    rw [heq]
    split_ifs <;> first | omega | (exfalso; linarith)

theorem binade_ge (x : ℚ) : -126 ≤ binade x :=
  le_max_right _ _

theorem ulp_pos (e : ℤ) : (0 : ℚ) < 2 ^ (e - 23) :=
  zpow_pos (by norm_num) _

theorem lt_zpow_binade_succ (x : ℚ) : x < 2 ^ (binade x + 1) := by
  have h1 : x < ((2 : ℕ) : ℚ) ^ (Int.log 2 x + 1) := Int.lt_zpow_succ_log_self (by norm_num) x
  have h2 : ((2 : ℕ) : ℚ) ^ (Int.log 2 x + 1) ≤ 2 ^ (binade x + 1) := by
    rw [Nat.cast_ofNat]
    exact zpow_le_zpow_right₀ (by norm_num)
      (by unfold binade; have := le_max_left (Int.log 2 x) (-126); omega)
  exact lt_of_lt_of_le h1 h2

theorem zpow_binade_le {x : ℚ} (hx : 0 < x) (h : -126 < binade x) : 2 ^ binade x ≤ x := by
  have hb : binade x = Int.log 2 x := by
    unfold binade at h ⊢
    rcases max_cases (Int.log 2 x) (-126) with ⟨h1, _⟩ | ⟨h1, _⟩
    · exact h1
    · rw [h1] at h; omega
  rw [hb]
  have := Int.zpow_log_le_self (b := 2) (r := x) (by norm_num) hx
  rwa [Nat.cast_ofNat] at this

theorem binade_mono {x y : ℚ} (hx : 0 < x) (h : x ≤ y) : binade x ≤ binade y :=
  max_le_max (Int.log_mono_right hx h) (le_refl _)

theorem two_pow_24_mul (e : ℤ) : (((2 : ℤ) ^ 24 : ℤ) : ℚ) * 2 ^ (e - 23) = 2 ^ (e + 1) := by
  have h : (((2 : ℤ) ^ 24 : ℤ) : ℚ) = (2 : ℚ) ^ (24 : ℤ) := by norm_num
  rw [h, ← zpow_add₀ (by norm_num : (2 : ℚ) ≠ 0)]
  congr 1
  omega

theorem two_pow_23_mul (e : ℤ) : (((2 : ℤ) ^ 23 : ℤ) : ℚ) * 2 ^ (e - 23) = 2 ^ e := by
  have h : (((2 : ℤ) ^ 23 : ℤ) : ℚ) = (2 : ℚ) ^ (23 : ℤ) := by norm_num
  rw [h, ← zpow_add₀ (by norm_num : (2 : ℚ) ≠ 0)]
  congr 1
  omega

theorem flmag_zero : flmag 0 = 0 := by
  simp [flmag, roundEven]

theorem flmag_nonneg {x : ℚ} (hx : 0 ≤ x) : 0 ≤ flmag x := by
  unfold flmag
  have h0 : (0 : ℚ) ≤ x / 2 ^ (binade x - 23) := div_nonneg hx (ulp_pos _).le
  have h1 : roundEven ((0 : ℤ) : ℚ) ≤ roundEven (x / 2 ^ (binade x - 23)) :=
    roundEven_mono (by simpa using h0)
  rw [roundEven_intCast] at h1
  exact mul_nonneg (by exact_mod_cast h1) (ulp_pos _).le

theorem flmag_le_zpow (x : ℚ) : flmag x ≤ 2 ^ (binade x + 1) := by
  unfold flmag
  have hq := ulp_pos (binade x)
  have h1 : x / 2 ^ (binade x - 23) ≤ ((2 ^ 24 : ℤ) : ℚ) := by
    rw [div_le_iff₀ hq]
    rw [two_pow_24_mul]
    exact (lt_zpow_binade_succ x).le
  have h3 := roundEven_mono h1
  rw [roundEven_intCast] at h3
  have h4 : ((roundEven (x / 2 ^ (binade x - 23)) : ℤ) : ℚ) ≤ ((2 ^ 24 : ℤ) : ℚ) := by
    exact_mod_cast h3
  calc (roundEven (x / 2 ^ (binade x - 23)) : ℚ) * 2 ^ (binade x - 23)
      ≤ ((2 ^ 24 : ℤ) : ℚ) * 2 ^ (binade x - 23) := mul_le_mul_of_nonneg_right h4 hq.le
    _ = 2 ^ (binade x + 1) := two_pow_24_mul _

theorem zpow_le_flmag {x : ℚ} (hx : 0 < x) (h : -126 < binade x) : 2 ^ binade x ≤ flmag x := by
  unfold flmag
  have hq := ulp_pos (binade x)
  have hscale : (((2 : ℤ) ^ 23 : ℤ) : ℚ) * 2 ^ (binade x - 23) = 2 ^ binade x :=
    two_pow_23_mul _
  have h1 : ((2 ^ 23 : ℤ) : ℚ) ≤ x / 2 ^ (binade x - 23) := by
    rw [le_div_iff₀ hq, hscale]
    exact zpow_binade_le hx h
  have h3 := roundEven_mono h1
  rw [roundEven_intCast] at h3
  have h4 : ((2 ^ 23 : ℤ) : ℚ) ≤ ((roundEven (x / 2 ^ (binade x - 23)) : ℤ) : ℚ) := by
    exact_mod_cast h3
  calc (2 : ℚ) ^ binade x = ((2 ^ 23 : ℤ) : ℚ) * 2 ^ (binade x - 23) := hscale.symm
    _ ≤ (roundEven (x / 2 ^ (binade x - 23)) : ℚ) * 2 ^ (binade x - 23) :=
      mul_le_mul_of_nonneg_right h4 hq.le

theorem flmag_mono {x y : ℚ} (hx : 0 ≤ x) (h : x ≤ y) : flmag x ≤ flmag y := by
  rcases hx.lt_or_eq with hpos | hzero
  · have hb := binade_mono hpos h
    rcases hb.lt_or_eq with hlt | heq
    · have hy : -126 < binade y := lt_of_le_of_lt (binade_ge x) hlt
      calc flmag x ≤ 2 ^ (binade x + 1) := flmag_le_zpow x
        _ ≤ 2 ^ binade y := zpow_le_zpow_right₀ (by norm_num) (by omega)
        _ ≤ flmag y := zpow_le_flmag (lt_of_lt_of_le hpos h) hy
    · unfold flmag
      rw [heq]
      have hq := ulp_pos (binade y)
      have h1 : x / 2 ^ (binade y - 23) ≤ y / 2 ^ (binade y - 23) :=
        div_le_div_of_nonneg_right h hq.le
      have h2 := roundEven_mono h1
      exact mul_le_mul_of_nonneg_right (by exact_mod_cast h2) hq.le
  · rw [← hzero, flmag_zero]
    exact flmag_nonneg (hx.trans h)

theorem sig_le (x : ℚ) : roundEven (x / 2 ^ (binade x - 23)) ≤ 2 ^ 24 := by
  have hq := ulp_pos (binade x)
  have h1 : x / 2 ^ (binade x - 23) ≤ ((2 ^ 24 : ℤ) : ℚ) := by
    rw [div_le_iff₀ hq, two_pow_24_mul]
    exact (lt_zpow_binade_succ x).le
  have h3 := roundEven_mono h1
  rwa [roundEven_intCast] at h3

theorem sig_nonneg {x : ℚ} (hx : 0 ≤ x) : 0 ≤ roundEven (x / 2 ^ (binade x - 23)) := by
  have h0 : (0 : ℚ) ≤ x / 2 ^ (binade x - 23) := div_nonneg hx (ulp_pos _).le
  have h1 : roundEven ((0 : ℤ) : ℚ) ≤ roundEven (x / 2 ^ (binade x - 23)) :=
    roundEven_mono (by simpa using h0)
  rwa [roundEven_intCast] at h1

/-- A number with at most 24 significant bits and an exponent in range is a value of
`float`: rounding leaves it as it is. -/
theorem flmag_exact (m : ℕ) (k : ℤ) (hm : m < 2 ^ 24) (hk : -149 ≤ k) :
    flmag (m * 2 ^ k) = m * 2 ^ k := by
  rcases Nat.eq_zero_or_pos m with h0 | hpos
  · subst h0
    simp [flmag_zero]
  · have h2 : (0 : ℚ) < 2 ^ k := zpow_pos (by norm_num) _
    have hx : (0 : ℚ) < m * 2 ^ k := mul_pos (by exact_mod_cast hpos) h2
    have hlt : (m : ℚ) * 2 ^ k < ((2 : ℕ) : ℚ) ^ (k + 24) := by
      rw [Nat.cast_ofNat, zpow_add₀ (by norm_num : (2 : ℚ) ≠ 0), mul_comm ((2 : ℚ) ^ k)]
      have : (m : ℚ) < 2 ^ (24 : ℤ) := by
        have h : (m : ℚ) < ((2 ^ 24 : ℕ) : ℚ) := by exact_mod_cast hm
        have e : ((2 ^ 24 : ℕ) : ℚ) = 2 ^ (24 : ℤ) := by norm_num
        rwa [e] at h
      exact mul_lt_mul_of_pos_right this h2
    have hlog : Int.log 2 ((m : ℚ) * 2 ^ k) < k + 24 :=
      (Int.lt_zpow_iff_log_lt (by norm_num) hx).mp hlt
    have he : binade ((m : ℚ) * 2 ^ k) ≤ k + 23 := by
      unfold binade
      exact max_le (by omega) (by omega)
    obtain ⟨j, hj⟩ := Int.eq_ofNat_of_zero_le (by omega : 0 ≤ k + 23 - binade ((m : ℚ) * 2 ^ k))
    have hk' : k = (binade ((m : ℚ) * 2 ^ k) - 23) + j := by omega
    have hq := ulp_pos (binade ((m : ℚ) * 2 ^ k))
    have hsplit : (m : ℚ) * 2 ^ k =
        ((m * 2 ^ j : ℤ) : ℚ) * 2 ^ (binade ((m : ℚ) * 2 ^ k) - 23) := by
      conv_lhs => rw [hk']
      rw [zpow_add₀ (by norm_num : (2 : ℚ) ≠ 0), zpow_natCast]
      push_cast
      ring
    have hdiv : (m : ℚ) * 2 ^ k / 2 ^ (binade ((m : ℚ) * 2 ^ k) - 23) =
        ((m * 2 ^ j : ℤ) : ℚ) := by
      rw [div_eq_iff hq.ne']
      exact hsplit
    unfold flmag
    rw [hdiv, roundEven_intCast]
    exact hsplit.symm

theorem flmag_idem {x : ℚ} (hx : 0 ≤ x) : flmag (flmag x) = flmag x := by
  have hle := sig_le x
  have hnn := sig_nonneg hx
  have hb := binade_ge x
  rcases hle.lt_or_eq with hlt | heq
  · obtain ⟨m, hm⟩ := Int.eq_ofNat_of_zero_le hnn
    have hval : flmag x = (m : ℚ) * 2 ^ (binade x - 23) := by
      unfold flmag
      rw [hm]
      simp
    rw [hval]
    apply flmag_exact
    · have : (m : ℤ) < 2 ^ 24 := by rw [← hm]; exact hlt
      exact_mod_cast this
    · omega
  · have hval : flmag x = ((1 : ℕ) : ℚ) * 2 ^ (binade x + 1) := by
      unfold flmag
      rw [heq, two_pow_24_mul]
      simp
    rw [hval]
    apply flmag_exact
    · norm_num
    · omega

theorem fl32_nonneg {x : ℚ} (hx : 0 ≤ x) : fl32 x = flmag x := by
  simp [fl32, hx]

theorem fl32_neg {x : ℚ} (hx : x < 0) : fl32 x = -flmag (-x) := by
  simp [fl32, not_le.mpr hx]

theorem fl32_mono (x y : ℚ) (h : x ≤ y) : fl32 x ≤ fl32 y := by
  rcases le_or_lt 0 x with hx | hx
  · rw [fl32_nonneg hx, fl32_nonneg (hx.trans h)]
    exact flmag_mono hx h
  · rcases le_or_lt 0 y with hy | hy
    · rw [fl32_neg hx, fl32_nonneg hy]
      have h1 := flmag_nonneg (x := -x) (by linarith)
      have h2 := flmag_nonneg hy
      linarith
    · rw [fl32_neg hx, fl32_neg hy]
      have := flmag_mono (x := -y) (y := -x) (by linarith) (by linarith)
      linarith

theorem fl32_idem (x : ℚ) : fl32 (fl32 x) = fl32 x := by
  rcases le_or_lt 0 x with hx | hx
  · rw [fl32_nonneg hx, fl32_nonneg (flmag_nonneg hx), flmag_idem hx]
  · rw [fl32_neg hx]
    have h1 := flmag_nonneg (x := -x) (by linarith)
    rcases h1.lt_or_eq with hpos | hzero
    · rw [fl32_neg (by linarith), neg_neg, flmag_idem (by linarith)]
    · rw [← hzero]
      simp [fl32, flmag_zero]

/-- A number `m * 2 ^ k` with `m < 2 ^ 24` and `k ≥ -149` is a value of `float`. -/
theorem fl32_exact (m : ℕ) (k : ℤ) (hm : m < 2 ^ 24) (hk : -149 ≤ k) :
    fl32 (m * 2 ^ k) = m * 2 ^ k := by
  have h2 : (0 : ℚ) < 2 ^ k := zpow_pos (by norm_num) _
  rw [fl32_nonneg (mul_nonneg (Nat.cast_nonneg m) h2.le)]
  exact flmag_exact m k hm hk

/-- The rounding of binary32 has the properties the theorems use. -/
theorem fl32_rounding : Rounding fl32 where
  mono := fl32_mono
  idem := fl32_idem
  zero := by simpa using fl32_exact 0 0 (by norm_num) (by norm_num)
  one := by simpa using fl32_exact 1 0 (by norm_num) (by norm_num)

theorem binade_eq {x : ℚ} {e : ℤ} (h1 : 2 ^ e ≤ x) (h2 : x < 2 ^ (e + 1)) (he : -126 ≤ e) :
    binade x = e := by
  have hx : 0 < x := lt_of_lt_of_le (zpow_pos (by norm_num) _) h1
  have ha : e ≤ Int.log 2 x :=
    (Int.zpow_le_iff_le_log (b := 2) (by norm_num) hx).mp (by rwa [Nat.cast_ofNat])
  have hb : Int.log 2 x < e + 1 :=
    (Int.lt_zpow_iff_log_lt (b := 2) (by norm_num) hx).mp (by rwa [Nat.cast_ofNat])
  unfold binade
  rw [max_eq_left (by omega)]
  omega

/-- An increment of `2⁻²⁵` is absorbed at `1`: `1 + 2⁻²⁵` rounds to `1`. -/
theorem fl32_absorb : fl32 (1 + 1 / 2 ^ 25) = 1 := by
  have hb : binade (1 + 1 / 2 ^ 25) = 0 := binade_eq (by norm_num) (by norm_num) (by norm_num)
  have hfloor : ⌊(1 + 1 / 2 ^ 25 : ℚ) / 2 ^ ((0 : ℤ) - 23)⌋ = 8388608 := by
    rw [Int.floor_eq_iff]
    constructor <;> norm_num
  rw [fl32_nonneg (by norm_num)]
  unfold flmag roundEven
  rw [hb, hfloor]
  norm_num

theorem fl32_half : fl32 (1 / 2) = 1 / 2 := by
  have := fl32_exact 1 (-1) (by norm_num) (by norm_num)
  norm_num at this ⊢
  exact this

theorem fl32_three_halves : fl32 (3 / 2) = 3 / 2 := by
  have := fl32_exact 3 (-1) (by norm_num) (by norm_num)
  norm_num at this ⊢
  exact this

section SoloLemmas

variable {F E : Type}

theorem invokeAll_solo (act : F → E → E) (fs : List F) (w : Solo F E) :
    invokeAll (Solo.call act) fs w = some { w with env := runAll act fs w.env } := by
  induction fs generalizing w with
  | nil => rfl
  | cons f fs ih => simp [invokeAll, Solo.call, ih, runAll]

theorem Solo.start_eq (act : F → E → E) (w : Solo F E) :
    Solo.start act w =
      some { anim := { w.anim with alpha := 0, active := true, triggerAt := -1,
                                   triggered := false },
             env := runAll act w.anim.onStartCallbacks w.env } := by
  simp [Solo.start, Animation.start, Solo.ref, Animation.reset, invokeAll_solo]

theorem Solo.update_idle (fl : ℚ → ℚ) (act : F → E → E) (dt t : ℚ) (w : Solo F E)
    (hf : ¬ w.anim.fires t) (ha : w.anim.active = false) :
    Solo.update fl act dt t w = some w := by
  simp [Solo.update, Animation.update, Solo.ref, hf, ha]

theorem Solo.update_run (fl : ℚ → ℚ) (act : F → E → E) (dt t : ℚ) (w : Solo F E)
    (hf : ¬ w.anim.fires t) (ha : w.anim.active = true)
    (h : fl (w.anim.alpha + fl (dt / w.anim.duration)) ≤ 1) :
    Solo.update fl act dt t w =
      some { w with anim := { w.anim with
        alpha := fl (w.anim.alpha + fl (dt / w.anim.duration)) } } := by
  simp [Solo.update, Animation.update, Solo.ref, hf, ha, not_lt.mpr h]

theorem Solo.update_end (fl : ℚ → ℚ) (act : F → E → E) (dt t : ℚ) (w : Solo F E)
    (hf : ¬ w.anim.fires t) (ha : w.anim.active = true)
    (h : 1 < fl (w.anim.alpha + fl (dt / w.anim.duration))) :
    Solo.update fl act dt t w =
      some { anim := { w.anim with alpha := 1, active := false },
             env := runAll act w.anim.onEndCallbacks w.env } := by
  simp [Solo.update, Animation.update, Solo.ref, hf, ha, h, invokeAll_solo]

theorem Solo.update_fire_run (fl : ℚ → ℚ) (act : F → E → E) (dt t : ℚ) (w : Solo F E)
    (hf : w.anim.fires t) (h : fl (0 + fl (dt / w.anim.duration)) ≤ 1) :
    Solo.update fl act dt t w =
      some { anim := { w.anim with alpha := fl (0 + fl (dt / w.anim.duration)),
                                   active := true, triggerAt := -1, triggered := true },
             env := runAll act w.anim.onStartCallbacks w.env } := by
  simp only [zero_add] at h
  simp [Solo.update, Animation.update, Animation.start, Animation.reset, Solo.ref, hf,
    invokeAll_solo, not_lt.mpr h]

theorem Solo.update_fire_end (fl : ℚ → ℚ) (act : F → E → E) (dt t : ℚ) (w : Solo F E)
    (hf : w.anim.fires t) (h : 1 < fl (0 + fl (dt / w.anim.duration))) :
    Solo.update fl act dt t w =
      some { anim := { w.anim with alpha := 1, active := false,
                                   triggerAt := -1, triggered := true },
             env := runAll act w.anim.onEndCallbacks
                      (runAll act w.anim.onStartCallbacks w.env) } := by
  simp only [zero_add] at h
  simp [Solo.update, Animation.update, Animation.start, Animation.reset, Solo.ref, hf,
    invokeAll_solo, h]

theorem Solo.updates_pair (fl : ℚ → ℚ) (act : F → E → E) (dt t : ℚ) (us : List (ℚ × ℚ))
    (w : Solo F E) :
    Solo.updates fl act ((dt, t) :: us) w =
      (Solo.update fl act dt t w).bind (Solo.updates fl act us) :=
  rfl

theorem Solo.solo_updates_append (fl : ℚ → ℚ) (act : F → E → E) (us vs : List (ℚ × ℚ))
    (w : Solo F E) :
    Solo.updates fl act (us ++ vs) w =
      (Solo.updates fl act us w).bind (Solo.updates fl act vs) := by
  induction us generalizing w with
  | nil => rfl
  | cons u us ih =>
    simp only [List.cons_append, Solo.updates]
    cases Solo.update fl act u.1 u.2 w with
    | none => rfl
    | some w1 => simpa using ih w1

/-- With no trigger pending, updates leave an inactive animation as it is. -/
theorem Solo.updates_idle (fl : ℚ → ℚ) (act : F → E → E) (us : List (ℚ × ℚ))
    (w : Solo F E) (ht : w.anim.triggerAt < 0) (ha : w.anim.active = false) :
    Solo.updates fl act us w = some w := by
  induction us with
  | nil => rfl
  | cons u us ih =>
    have hf : ¬ w.anim.fires u.2 := fun h => absurd h.1 (not_le.mpr ht)
    simp [Solo.updates, Solo.update_idle fl act u.1 u.2 w hf ha, ih]

theorem totalDt_nonneg (us : List (ℚ × ℚ)) (h : ∀ u ∈ us, 0 ≤ u.1) : 0 ≤ totalDt us := by
  induction us with
  | nil => simp [totalDt]
  | cons u us ih =>
    have h1 := h u (List.mem_cons_self _ _)
    have h2 := ih (fun v hv => h v (List.mem_cons_of_mem _ hv))
    simp only [totalDt, List.map_cons, List.sum_cons] at *
    linarith

theorem accumulate_cons (fl : ℚ → ℚ) (d a : ℚ) (u : ℚ × ℚ) (us : List (ℚ × ℚ)) :
    accumulate fl d a (u :: us) = accumulate fl d (fl (a + fl (u.1 / d))) us :=
  rfl

theorem accumulate_append (fl : ℚ → ℚ) (d a : ℚ) (us vs : List (ℚ × ℚ)) :
    accumulate fl d a (us ++ vs) = accumulate fl d (accumulate fl d a us) vs := by
  simp [accumulate, List.foldl_append]

/-- The running sum stays a value of `T`. -/
theorem accumulate_fixed (fl : ℚ → ℚ) (hfl : Rounding fl) (d a : ℚ) (ha : fl a = a)
    (us : List (ℚ × ℚ)) : fl (accumulate fl d a us) = accumulate fl d a us := by
  induction us generalizing a with
  | nil => exact ha
  | cons u us ih => exact ih (fl (a + fl (u.1 / d))) (hfl.idem _)

/-- One rounded step with `dt ≥ 0` does not decrease a value of `T`. -/
theorem Rounding.le_step {fl : ℚ → ℚ} (hfl : Rounding fl) {d a dt : ℚ} (hd : 0 < d)
    (ha : fl a = a) (hdt : 0 ≤ dt) : a ≤ fl (a + fl (dt / d)) := by
  have hq : 0 ≤ fl (dt / d) := by
    have := hfl.mono 0 (dt / d) (div_nonneg hdt hd.le)
    rwa [hfl.zero] at this
  have := hfl.mono a (a + fl (dt / d)) (by linarith)
  rwa [ha] at this

/-- With `dt ≥ 0` the running sum does not decrease. -/
theorem accumulate_ge (fl : ℚ → ℚ) (hfl : Rounding fl) (d a : ℚ) (hd : 0 < d)
    (ha : fl a = a) (us : List (ℚ × ℚ)) (hdt : ∀ u ∈ us, 0 ≤ u.1) :
    a ≤ accumulate fl d a us := by
  induction us generalizing a with
  | nil => exact le_refl _
  | cons u us ih =>
    have hu := hdt u (List.mem_cons_self _ _)
    have h1 := hfl.le_step hd ha hu
    have h2 := ih (fl (a + fl (u.1 / d))) (hfl.idem _)
      (fun v hv => hdt v (List.mem_cons_of_mem _ hv))
    rw [accumulate_cons]
    exact h1.trans h2

/-- With `dt ≥ 0` the running sum after a prefix of the updates is at most the running
sum after all of them. -/
theorem accumulate_take_le (fl : ℚ → ℚ) (hfl : Rounding fl) (d : ℚ) (hd : 0 < d)
    (us : List (ℚ × ℚ)) (hdt : ∀ u ∈ us, 0 ≤ u.1) (j : ℕ) :
    accumulate fl d 0 (us.take j) ≤ accumulate fl d 0 us := by
  have hge := accumulate_ge fl hfl d (accumulate fl d 0 (us.take j)) hd
    (accumulate_fixed fl hfl _ 0 hfl.zero _) (us.drop j)
    (fun u hu => hdt u (List.mem_of_mem_drop hu))
  rw [← accumulate_append, List.take_append_drop] at hge
  exact hge

/-- In exact arithmetic the running sum is the cumulative `dt` over the duration. -/
theorem accumulate_exact (fl : ℚ → ℚ) (hid : ∀ x, fl x = x) (d a : ℚ) (us : List (ℚ × ℚ)) :
    accumulate fl d a us = a + totalDt us / d := by
  induction us generalizing a with
  | nil => simp [accumulate, totalDt]
  | cons u us ih =>
    rw [accumulate_cons, ih, hid, hid]
    simp only [totalDt, List.map_cons, List.sum_cons]
    ring

/-- An active animation with no trigger pending, under a sequence of updates with
`dt ≥ 0`: `alpha` is the running sum while that is at most `1`, and the animation is
complete, with the end callbacks run once, as soon as the running sum exceeds `1`. -/
theorem Solo.updates_active (fl : ℚ → ℚ) (hfl : Rounding fl) (act : F → E → E)
    (us : List (ℚ × ℚ)) (w : Solo F E)
    (hd : 0 < w.anim.duration) (ht : w.anim.triggerAt < 0) (ha : w.anim.active = true)
    (h1 : w.anim.alpha ≤ 1) (hrep : fl w.anim.alpha = w.anim.alpha)
    (hdt : ∀ u ∈ us, 0 ≤ u.1) :
    Solo.updates fl act us w =
      some (if accumulate fl w.anim.duration w.anim.alpha us ≤ 1 then
              { w with anim := { w.anim with
                  alpha := accumulate fl w.anim.duration w.anim.alpha us } }
            else
              { anim := { w.anim with alpha := 1, active := false },
                env := runAll act w.anim.onEndCallbacks w.env }) := by
  induction us generalizing w with
  | nil => simp [Solo.updates, accumulate, h1]
  | cons u us ih =>
    have hu := hdt u (List.mem_cons_self _ _)
    have hus : ∀ v ∈ us, 0 ≤ v.1 := fun v hv => hdt v (List.mem_cons_of_mem _ hv)
    have hf : ¬ w.anim.fires u.2 := fun h => absurd h.1 (not_le.mpr ht)
    rw [accumulate_cons]
    by_cases hc : fl (w.anim.alpha + fl (u.1 / w.anim.duration)) ≤ 1
    · simp only [Solo.updates, Solo.update_run fl act u.1 u.2 w hf ha hc, Option.some_bind]
      rw [ih { w with anim := { w.anim with
        alpha := fl (w.anim.alpha + fl (u.1 / w.anim.duration)) } }
        hd ht ha hc (hfl.idem _) hus]
    · have hc1 : 1 < fl (w.anim.alpha + fl (u.1 / w.anim.duration)) := not_le.mp hc
      simp only [Solo.updates, Solo.update_end fl act u.1 u.2 w hf ha hc1, Option.some_bind]
      rw [Solo.updates_idle fl act us
        { anim := { w.anim with alpha := 1, active := false },
          env := runAll act w.anim.onEndCallbacks w.env } ht rfl]
      have hge := accumulate_ge fl hfl w.anim.duration _ hd (hfl.idem
        (w.anim.alpha + fl (u.1 / w.anim.duration))) us hus
      have : ¬ (accumulate fl w.anim.duration
          (fl (w.anim.alpha + fl (u.1 / w.anim.duration))) us ≤ 1) := by
        rw [not_le]
        exact lt_of_lt_of_le hc1 hge
      simp [this]

end SoloLemmas

/-! ## Claims about one animation -/

section SoloClaims

variable {F E : Type}

/-- Exact arithmetic is a rounding. -/
theorem Rounding.exact : Rounding (fun x : ℚ => x) where
  mono := fun _ _ h => h
  idem := fun _ => rfl
  zero := rfl
  one := rfl

/-- The first step from `alpha = 0` with `dt ≤ d` does not exceed `1`. -/
theorem Rounding.first_step_le_one {fl : ℚ → ℚ} (hfl : Rounding fl) {d dt : ℚ} (hd : 0 < d)
    (h : dt ≤ d) : fl (0 + fl (dt / d)) ≤ 1 := by
  have hq : dt / d ≤ 1 := (div_le_one hd).mpr h
  have h1 : fl (dt / d) ≤ 1 := by
    have := hfl.mono _ _ hq
    rwa [hfl.one] at this
  rw [zero_add, hfl.idem]
  exact h1

/-- C2: `start()` always resets progress. From every state `w` (whatever `alpha`,
`active`, `triggerAt`, `triggered` are), `start()` returns, with `alpha = 0`,
`active = true`, `triggerAt = -1`, `triggered = false`, the duration and both callback
vectors unchanged, and the rest of the state is what invoking every start callback
once, in registration order, makes of it (no end callback is invoked). -/
theorem start_resets_progress (act : F → E → E) (w : Solo F E) :
    ∃ w', Solo.start act w = some w' ∧
      w'.anim.alpha = 0 ∧ w'.anim.active = true ∧
      w'.anim.triggerAt = -1 ∧ w'.anim.triggered = false ∧
      w'.anim.duration = w.anim.duration ∧
      w'.anim.onStartCallbacks = w.anim.onStartCallbacks ∧
      w'.anim.onEndCallbacks = w.anim.onEndCallbacks ∧
      w'.env = runAll act w.anim.onStartCallbacks w.env :=
  ⟨_, Solo.start_eq act w, rfl, rfl, rfl, rfl, rfl, rfl, rfl, rfl⟩

/-- In `float`, an update with `dt = 2⁻²⁵` leaves a running animation with `alpha = 1`
and `duration = 1` as it is: the increment is absorbed by the rounding. -/
theorem Solo.update_absorbed (w : Solo ℕ (List ℕ)) (t : ℚ) (hd : w.anim.duration = 1)
    (ht : w.anim.triggerAt < 0) (ha : w.anim.active = true) (h1 : w.anim.alpha = 1) :
    Solo.update fl32 record (1 / 2 ^ 25) t w = some w := by
  have hf : ¬ w.anim.fires t := fun h => absurd h.1 (not_le.mpr ht)
  have hq : fl32 (1 / 2 ^ 25 / w.anim.duration) = 1 / 2 ^ 25 := by
    rw [hd, div_one]
    have := fl32_exact 1 (-25) (by norm_num) (by norm_num)
    norm_num at this ⊢
    exact this
  have hs : fl32 (w.anim.alpha + fl32 (1 / 2 ^ 25 / w.anim.duration)) = 1 := by
    rw [hq, h1]
    exact fl32_absorb
  rw [Solo.update_run fl32 record _ t w hf ha (by rw [hs]), hs, ← h1]

/-- C1, the claim as stated fails in `float`. With `duration = 1`, after `start()`, the
updates `dt = 1` and `dt = 2⁻²⁵` have the cumulative progress `1 + 2⁻²⁵ > 1`, but the
animation is still active with `alpha = 1` and no end callback has been invoked; it
stays so however many updates with `dt = 2⁻²⁵` follow. -/
theorem update_absorbs_small_dt :
    Solo.start record Solo.midRun = some (Solo.runningAt 0) ∧
    Solo.updates fl32 record [(1, 0), (1 / 2 ^ 25, 0)] (Solo.runningAt 0) =
      some (Solo.runningAt 1) ∧
    1 < totalDt [(1, 0), (1 / 2 ^ 25, 0)] / (Solo.runningAt 0).anim.duration ∧
    (Solo.runningAt 1).anim.active = true ∧ (Solo.runningAt 1).anim.alpha = 1 ∧
    (Solo.runningAt 1).env = [0, 1] ∧
    ∀ n, Solo.updates fl32 record ((1, 0) :: List.replicate n (1 / 2 ^ 25, 0))
      (Solo.runningAt 0) = some (Solo.runningAt 1) := by
  have hfirst : fl32 ((Solo.runningAt 0).anim.alpha +
      fl32 (1 / (Solo.runningAt 0).anim.duration)) = 1 := by
    show fl32 (0 + fl32 (1 / 1)) = 1
    rw [div_one, fl32_rounding.one, zero_add, fl32_rounding.one]
  have hstep : Solo.update fl32 record 1 0 (Solo.runningAt 0) = some (Solo.runningAt 1) := by
    rw [Solo.update_run fl32 record 1 0 (Solo.runningAt 0)
      (fun h => by norm_num [Animation.fires, Solo.runningAt] at h) rfl (by rw [hfirst]),
      hfirst]
    rfl
  have hrep : ∀ n, Solo.updates fl32 record (List.replicate n (1 / 2 ^ 25, 0))
      (Solo.runningAt 1) = some (Solo.runningAt 1) := by
    intro n
    induction n with
    | zero => rfl
    | succ n ih =>
      rw [List.replicate_succ, Solo.updates_pair,
        Solo.update_absorbed (Solo.runningAt 1) 0 rfl (by norm_num [Solo.runningAt]) rfl rfl,
        Option.some_bind]
      exact ih
  refine ⟨?_, ?_, ?_, rfl, rfl, rfl, ?_⟩
  · rw [Solo.start_eq]
    simp [Solo.midRun, Solo.runningAt, runAll, record]
  · rw [Solo.updates_pair, hstep, Option.some_bind, Solo.updates_pair,
      Solo.update_absorbed (Solo.runningAt 1) 0 rfl (by norm_num [Solo.runningAt]) rfl rfl,
      Option.some_bind]
    rfl
  · norm_num [totalDt, Solo.runningAt]
  · intro n
    rw [Solo.updates_pair, hstep, Option.some_bind]
    exact hrep n

/-- C1 as amended. After `start()` on an animation with duration `d > 0`, and updates
with `dt ≥ 0`, consider the state after the first `i` updates and the running sum `p`
that the statements `alpha += dt / d` of these updates compute in the arithmetic of
`T` from `0` (each quotient and each sum rounded; it never decreases with `i`, and in
exact arithmetic it is `(dt_1 + ... + dt_i) / d`). While `p ≤ 1` the animation is
active with `alpha = p` and nothing but the start callbacks has been invoked; as soon
as `p > 1` the state is `alpha = 1`, `active = false` with every end callback invoked
once, in registration order, and it is that same state after every later update. -/
theorem update_one_run (fl : ℚ → ℚ) (hfl : Rounding fl) (act : F → E → E) (w0 : Solo F E)
    (us : List (ℚ × ℚ)) (hd : 0 < w0.anim.duration) (hdt : ∀ u ∈ us, 0 ≤ u.1) :
    ∃ w1, Solo.start act w0 = some w1 ∧ w1.anim.active = true ∧ w1.anim.alpha = 0 ∧
      ∀ i : ℕ,
        (∀ j ≤ i, accumulate fl w0.anim.duration 0 (us.take j) ≤
          accumulate fl w0.anim.duration 0 (us.take i)) ∧
        ((∀ x, fl x = x) →
          accumulate fl w0.anim.duration 0 (us.take i) =
            totalDt (us.take i) / w0.anim.duration) ∧
        ∃ w, Solo.updates fl act (us.take i) w1 = some w ∧
          (accumulate fl w0.anim.duration 0 (us.take i) ≤ 1 →
            w = { w1 with anim := { w1.anim with
                    alpha := accumulate fl w0.anim.duration 0 (us.take i) } }) ∧
          (1 < accumulate fl w0.anim.duration 0 (us.take i) →
            w = { anim := { w1.anim with alpha := 1, active := false },
                  env := runAll act w0.anim.onEndCallbacks w1.env }) := by
  refine ⟨_, Solo.start_eq act w0, rfl, rfl, fun i => ⟨?_, ?_, ?_⟩⟩
  · intro j hj
    have htk : (us.take i).take j = us.take j := by
      rw [List.take_take, min_eq_left hj]
    have hsplit : us.take i = us.take j ++ (us.take i).drop j := by
      rw [← htk]
      exact (List.take_append_drop j _).symm
    have hge := accumulate_ge fl hfl w0.anim.duration
      (accumulate fl w0.anim.duration 0 (us.take j)) hd
      (accumulate_fixed fl hfl _ 0 hfl.zero _) ((us.take i).drop j)
      (fun u hu => hdt u (List.mem_of_mem_take (List.mem_of_mem_drop hu)))
    rw [← accumulate_append, ← hsplit] at hge
    exact hge
  · intro hid
    rw [accumulate_exact fl hid, zero_add]
  · have hi : ∀ u ∈ us.take i, 0 ≤ u.1 := fun u hu => hdt u (List.mem_of_mem_take hu)
    refine ⟨_, Solo.updates_active fl hfl act (us.take i)
      { anim := { w0.anim with alpha := 0, active := true, triggerAt := -1,
                               triggered := false },
        env := runAll act w0.anim.onStartCallbacks w0.env }
      hd (by norm_num) rfl (by norm_num) hfl.zero hi, ?_, ?_⟩
    · intro h
      simp [h]
    · intro h
      simp [not_le.mpr h]

/-- In `float`, the running sum of four and of five updates with `dt = 0.25` at
`duration = 1`: exactly `1`, and `1.25`. -/
theorem accumulate_quarters :
    accumulate fl32 1 0 [(1 / 4, 0), (1 / 4, 0), (1 / 4, 0), (1 / 4, 0)] = 1 ∧
    accumulate fl32 1 0 [(1 / 4, 0), (1 / 4, 0), (1 / 4, 0), (1 / 4, 0), (1 / 4, 0)] =
      5 / 4 := by
  have hq : fl32 (1 / 4) = 1 / 4 := by
    have := fl32_exact 1 (-2) (by norm_num) (by norm_num)
    norm_num at this ⊢
    exact this
  have h34 : fl32 (3 / 4) = 3 / 4 := by
    have := fl32_exact 3 (-2) (by norm_num) (by norm_num)
    norm_num at this ⊢
    exact this
  have h54 : fl32 (5 / 4) = 5 / 4 := by
    have := fl32_exact 5 (-2) (by norm_num) (by norm_num)
    norm_num at this ⊢
    exact this
  have s0 : fl32 (0 + fl32 (((1 : ℚ) / 4, (0 : ℚ)).1 / 1)) = 1 / 4 := by
    show fl32 (0 + fl32 ((1 : ℚ) / 4 / 1)) = 1 / 4
    rw [div_one, hq, zero_add, hq]
  have s1 : fl32 (1 / 4 + fl32 (((1 : ℚ) / 4, (0 : ℚ)).1 / 1)) = 1 / 2 := by
    show fl32 (1 / 4 + fl32 ((1 : ℚ) / 4 / 1)) = 1 / 2
    rw [div_one, hq, show (1 : ℚ) / 4 + 1 / 4 = 1 / 2 by norm_num, fl32_half]
  have s2 : fl32 (1 / 2 + fl32 (((1 : ℚ) / 4, (0 : ℚ)).1 / 1)) = 3 / 4 := by
    show fl32 (1 / 2 + fl32 ((1 : ℚ) / 4 / 1)) = 3 / 4
    rw [div_one, hq, show (1 : ℚ) / 2 + 1 / 4 = 3 / 4 by norm_num, h34]
  have s3 : fl32 (3 / 4 + fl32 (((1 : ℚ) / 4, (0 : ℚ)).1 / 1)) = 1 := by
    show fl32 (3 / 4 + fl32 ((1 : ℚ) / 4 / 1)) = 1
    rw [div_one, hq, show (3 : ℚ) / 4 + 1 / 4 = 1 by norm_num, fl32_rounding.one]
  have s4 : fl32 (1 + fl32 (((1 : ℚ) / 4, (0 : ℚ)).1 / 1)) = 5 / 4 := by
    show fl32 (1 + fl32 ((1 : ℚ) / 4 / 1)) = 5 / 4
    rw [div_one, hq, show (1 : ℚ) + 1 / 4 = 5 / 4 by norm_num, h54]
  constructor
  · rw [accumulate_cons, s0, accumulate_cons, s1, accumulate_cons, s2, accumulate_cons, s3]
    rfl
  · rw [accumulate_cons, s0, accumulate_cons, s1, accumulate_cons, s2, accumulate_cons, s3,
      accumulate_cons, s4]
    rfl

/-- The scenario of C1 in exact arithmetic: `duration = 1` and updates with `dt = 0.3`;
`alpha` is `0.3`, `0.6`, `0.9`, then the fourth update completes the run and invokes
the end callbacks `2, 3`, and the fifth changes nothing. And a run in `float`:
`duration = 1` and updates with `dt = 0.25`; after the fourth update `alpha = 1` and the
animation is still active, and the fifth update completes the run. -/
theorem update_one_run_witness :
    ∃ w1, Solo.start record Solo.midRun = some w1 ∧
      (∃ w, Solo.updates (fun x => x) record [(3 / 10, 0)] w1 = some w ∧
        w.anim.alpha = 3 / 10 ∧ w.anim.active = true ∧ w.env = [0, 1]) ∧
      (∃ w, Solo.updates (fun x => x) record [(3 / 10, 0), (3 / 10, 0)] w1 = some w ∧
        w.anim.alpha = 3 / 5 ∧ w.anim.active = true ∧ w.env = [0, 1]) ∧
      (∃ w, Solo.updates (fun x => x) record [(3 / 10, 0), (3 / 10, 0), (3 / 10, 0)] w1 =
          some w ∧
        w.anim.alpha = 9 / 10 ∧ w.anim.active = true ∧ w.env = [0, 1]) ∧
      (∃ w, Solo.updates (fun x => x) record
          [(3 / 10, 0), (3 / 10, 0), (3 / 10, 0), (3 / 10, 0)] w1 = some w ∧
        w.anim.alpha = 1 ∧ w.anim.active = false ∧ w.env = [0, 1, 2, 3]) ∧
      (∃ w, Solo.updates (fun x => x) record
          [(3 / 10, 0), (3 / 10, 0), (3 / 10, 0), (3 / 10, 0), (3 / 10, 0)] w1 = some w ∧
        w.anim.alpha = 1 ∧ w.anim.active = false ∧ w.env = [0, 1, 2, 3]) ∧
      (∃ w, Solo.updates fl32 record
          [(1 / 4, 0), (1 / 4, 0), (1 / 4, 0), (1 / 4, 0)] w1 = some w ∧
        w.anim.alpha = 1 ∧ w.anim.active = true ∧ w.env = [0, 1]) ∧
      (∃ w, Solo.updates fl32 record
          [(1 / 4, 0), (1 / 4, 0), (1 / 4, 0), (1 / 4, 0), (1 / 4, 0)] w1 = some w ∧
        w.anim.alpha = 1 ∧ w.anim.active = false ∧ w.env = [0, 1, 2, 3]) := by
  obtain ⟨w1, hs, ha, hz, h⟩ := update_one_run (fun x => x) Rounding.exact record Solo.midRun
    [(3 / 10, 0), (3 / 10, 0), (3 / 10, 0), (3 / 10, 0), (3 / 10, 0)]
    (by norm_num [Solo.midRun]) (by norm_num)
  obtain ⟨w2, hs2, -, -, g⟩ := update_one_run fl32 fl32_rounding record Solo.midRun
    [(1 / 4, 0), (1 / 4, 0), (1 / 4, 0), (1 / 4, 0), (1 / 4, 0)]
    (by norm_num [Solo.midRun]) (by norm_num)
  have e12 : w2 = w1 := Option.some.inj (hs2.symm.trans hs)
  subst e12
  have he : w2.env = [0, 1] := by
    rw [Solo.start_eq] at hs
    rw [← Option.some.inj hs]
    simp [Solo.midRun, runAll, record]
  refine ⟨w2, hs, ?_, ?_, ?_, ?_, ?_, ?_, ?_⟩
  · obtain ⟨-, hex, w, hw, hrun, -⟩ := h 1
    have hv := hex (fun _ => rfl)
    rw [hv] at hrun
    have := hrun (by norm_num [totalDt, Solo.midRun])
    subst this
    exact ⟨_, hw, by norm_num [totalDt, Solo.midRun], ha, he⟩
  · obtain ⟨-, hex, w, hw, hrun, -⟩ := h 2
    have hv := hex (fun _ => rfl)
    rw [hv] at hrun
    have := hrun (by norm_num [totalDt, Solo.midRun])
    subst this
    exact ⟨_, hw, by norm_num [totalDt, Solo.midRun], ha, he⟩
  · obtain ⟨-, hex, w, hw, hrun, -⟩ := h 3
    have hv := hex (fun _ => rfl)
    rw [hv] at hrun
    have := hrun (by norm_num [totalDt, Solo.midRun])
    subst this
    exact ⟨_, hw, by norm_num [totalDt, Solo.midRun], ha, he⟩
  · obtain ⟨-, hex, w, hw, -, hdone⟩ := h 4
    have hv := hex (fun _ => rfl)
    rw [hv] at hdone
    have := hdone (by norm_num [totalDt, Solo.midRun])
    subst this
    exact ⟨_, hw, rfl, rfl, by simp [he, Solo.midRun, runAll, record]⟩
  · obtain ⟨-, hex, w, hw, -, hdone⟩ := h 5
    have hv := hex (fun _ => rfl)
    rw [hv] at hdone
    have := hdone (by norm_num [totalDt, Solo.midRun])
    subst this
    exact ⟨_, hw, rfl, rfl, by simp [he, Solo.midRun, runAll, record]⟩
  · obtain ⟨-, -, w, hw, hrun, -⟩ := g 4
    have hacc : accumulate fl32 Solo.midRun.anim.duration 0
        (List.take 4 [((1 : ℚ) / 4, (0 : ℚ)), (1 / 4, 0), (1 / 4, 0), (1 / 4, 0), (1 / 4, 0)])
        = 1 := accumulate_quarters.1
    rw [hacc] at hrun
    have := hrun (le_refl 1)
    subst this
    exact ⟨_, hw, rfl, ha, he⟩
  · obtain ⟨-, -, w, hw, -, hdone⟩ := g 5
    have hacc : accumulate fl32 Solo.midRun.anim.duration 0
        (List.take 5 [((1 : ℚ) / 4, (0 : ℚ)), (1 / 4, 0), (1 / 4, 0), (1 / 4, 0), (1 / 4, 0)])
        = 5 / 4 := accumulate_quarters.2
    rw [hacc] at hdone
    have := hdone (by norm_num)
    subst this
    exact ⟨_, hw, rfl, rfl, by simp [he, Solo.midRun, runAll, record]⟩

/-- C9: the frame in which the scheduled trigger fires. For an idle animation with a
trigger scheduled at `triggerAt ≥ 0`, not yet triggered, and duration `d > 0`: an
update with `now < triggerAt` is a no-op, and an update `update(dt, now)` with
`now ≥ triggerAt` and `dt ≤ d` (in particular `0 ≤ dt ≤ d`) fires the trigger and
applies the progress of that same frame: afterwards `active = true`,
`triggered = true`, `triggerAt = -1`, `alpha = dt / d` (the quotient as computed in
`T`, `fl (dt / d)`), and the start callbacks (and nothing else) have been invoked
once. -/
theorem trigger_frame_policy (fl : ℚ → ℚ) (hfl : Rounding fl) (act : F → E → E)
    (w : Solo F E) (dt now : ℚ)
    (hidle : w.anim.active = false) (htau : 0 ≤ w.anim.triggerAt)
    (hnot : w.anim.triggered = false) (hd : 0 < w.anim.duration)
    (hnow : w.anim.triggerAt ≤ now) (h1 : dt ≤ w.anim.duration) :
    (∀ dt' now', now' < w.anim.triggerAt → Solo.update fl act dt' now' w = some w) ∧
    ∃ w', Solo.update fl act dt now w = some w' ∧
      w'.anim.active = true ∧ w'.anim.triggered = true ∧ w'.anim.triggerAt = -1 ∧
      w'.anim.alpha = fl (dt / w.anim.duration) ∧
      w'.env = runAll act w.anim.onStartCallbacks w.env := by
  constructor
  · intro dt' now' hlt
    exact Solo.update_idle fl act dt' now' w (fun h => absurd h.2.2 (not_le.mpr hlt)) hidle
  · have hq := hfl.first_step_le_one hd h1
    refine ⟨_, Solo.update_fire_run fl act dt now w ⟨htau, hnot, hnow⟩ hq, rfl, rfl, rfl,
      ?_, rfl⟩
    show fl (0 + fl (dt / w.anim.duration)) = fl (dt / w.anim.duration)
    rw [zero_add, hfl.idem]

/-- The scenario of C9 in exact arithmetic: `triggerAt = 0.5`, `duration = 1`, an
update at `now = 0.2` (a no-op) and an update with `dt = 0.25` at `now = 0.6`; and the
same in `float`, with the updates at `now = 0.25` and `now = 0.625`. -/
theorem trigger_frame_policy_witness :
    (Solo.update (fun x => x) record (1 / 4) (1 / 5) (Solo.scheduled (1 / 2)) =
      some (Solo.scheduled (1 / 2)) ∧
    ∃ w', Solo.update (fun x => x) record (1 / 4) (3 / 5) (Solo.scheduled (1 / 2)) =
        some w' ∧
      w'.anim.active = true ∧ w'.anim.triggered = true ∧ w'.anim.triggerAt = -1 ∧
      w'.anim.alpha = 1 / 4 ∧ w'.env = [0, 1]) ∧
    (Solo.update fl32 record (1 / 4) (1 / 4) (Solo.scheduled (1 / 2)) =
      some (Solo.scheduled (1 / 2)) ∧
    ∃ w', Solo.update fl32 record (1 / 4) (5 / 8) (Solo.scheduled (1 / 2)) = some w' ∧
      w'.anim.active = true ∧ w'.anim.triggered = true ∧ w'.anim.triggerAt = -1 ∧
      w'.anim.alpha = 1 / 4 ∧ w'.env = [0, 1]) := by
  have h := trigger_frame_policy (fun x => x) Rounding.exact record
    (Solo.scheduled (1 / 2)) (1 / 4) (3 / 5) rfl
    (by norm_num [Solo.scheduled]) rfl (by norm_num [Solo.scheduled])
    (by norm_num [Solo.scheduled]) (by norm_num [Solo.scheduled])
  have g := trigger_frame_policy fl32 fl32_rounding record
    (Solo.scheduled (1 / 2)) (1 / 4) (5 / 8) rfl
    (by norm_num [Solo.scheduled]) rfl (by norm_num [Solo.scheduled])
    (by norm_num [Solo.scheduled]) (by norm_num [Solo.scheduled])
  have hq : fl32 (1 / 4 / (Solo.scheduled (1 / 2)).anim.duration) = 1 / 4 := by
    show fl32 (1 / 4 / 1) = 1 / 4
    have := fl32_exact 1 (-2) (by norm_num) (by norm_num)
    norm_num at this ⊢
    exact this
  refine ⟨⟨h.1 (1 / 4) (1 / 5) (by norm_num [Solo.scheduled]), ?_⟩,
    ⟨g.1 (1 / 4) (1 / 4) (by norm_num [Solo.scheduled]), ?_⟩⟩
  · obtain ⟨w', hw, ha, htr, hta, hal, henv⟩ := h.2
    refine ⟨w', hw, ha, htr, hta, ?_, ?_⟩
    · rw [hal]; norm_num [Solo.scheduled]
    · rw [henv]; simp [Solo.scheduled, runAll, record]
  · obtain ⟨w', hw, ha, htr, hta, hal, henv⟩ := g.2
    refine ⟨w', hw, ha, htr, hta, ?_, ?_⟩
    · rw [hal, hq]
    · rw [henv]; simp [Solo.scheduled, runAll, record]

/-- With no trigger pending (`triggerAt < 0`), a sequence of updates returns, never
invokes a start callback and keeps `triggerAt` and `triggered`: the rest of the state
is left as it was or, when the animation was active and completed, the end callbacks
ran once. -/
theorem Solo.updates_untriggered (fl : ℚ → ℚ) (act : F → E → E) (us : List (ℚ × ℚ))
    (w : Solo F E) (ht : w.anim.triggerAt < 0) :
    ∃ w', Solo.updates fl act us w = some w' ∧
      w'.anim.triggerAt = w.anim.triggerAt ∧ w'.anim.triggered = w.anim.triggered ∧
      w'.anim.onEndCallbacks = w.anim.onEndCallbacks ∧
      (w'.env = w.env ∨ w'.env = runAll act w.anim.onEndCallbacks w.env) := by
  induction us generalizing w with
  | nil => exact ⟨w, rfl, rfl, rfl, rfl, Or.inl rfl⟩
  | cons u us ih =>
    have hf : ¬ w.anim.fires u.2 := fun h => absurd h.1 (not_le.mpr ht)
    by_cases ha : w.anim.active = true
    · by_cases hc : fl (w.anim.alpha + fl (u.1 / w.anim.duration)) ≤ 1
      · obtain ⟨w', h1, h2, h3, h4, h5⟩ := ih
          { w with anim := { w.anim with
              alpha := fl (w.anim.alpha + fl (u.1 / w.anim.duration)) } } ht
        exact ⟨w', by simp [Solo.updates, Solo.update_run fl act u.1 u.2 w hf ha hc, h1],
          h2, h3, h4, h5⟩
      · have hc1 : 1 < fl (w.anim.alpha + fl (u.1 / w.anim.duration)) := not_le.mp hc
        refine ⟨{ anim := { w.anim with alpha := 1, active := false },
                  env := runAll act w.anim.onEndCallbacks w.env }, ?_,
          rfl, rfl, rfl, Or.inr rfl⟩
        simp only [Solo.updates, Solo.update_end fl act u.1 u.2 w hf ha hc1,
          Option.some_bind]
        exact Solo.updates_idle fl act us
          { anim := { w.anim with alpha := 1, active := false },
            env := runAll act w.anim.onEndCallbacks w.env } ht rfl
    · have ha' : w.anim.active = false := by simpa using ha
      exact ⟨w, by
        simp only [Solo.updates, Solo.update_idle fl act u.1 u.2 w hf ha', Option.some_bind]
        exact Solo.updates_idle fl act us w ht ha', rfl, rfl, rfl, Or.inl rfl⟩

/-- C3: the scheduled trigger. For an idle animation (`active = false`,
`triggered = false`) with `triggerAt = tau ≥ 0` and a sequence of updates
`pre ++ u :: post` in which `u` is the first call with `now ≥ tau`: the calls of `pre`
leave the state unchanged (nothing is invoked); the call `u` invokes the start
callbacks once and leaves `triggered = true` (and `triggerAt = -1`); after any further
calls `post` the trigger cannot fire (`fires` is false at every time), and over the
whole sequence the start callbacks were invoked exactly once, followed at most by one
run of the end callbacks. -/
theorem scheduled_trigger_once (fl : ℚ → ℚ) (act : F → E → E) (w : Solo F E)
    (pre post : List (ℚ × ℚ)) (u : ℚ × ℚ)
    (hidle : w.anim.active = false) (hnot : w.anim.triggered = false)
    (htau : 0 ≤ w.anim.triggerAt)
    (hpre : ∀ v ∈ pre, v.2 < w.anim.triggerAt) (hu : w.anim.triggerAt ≤ u.2) :
    Solo.updates fl act pre w = some w ∧
    (∃ w1, Solo.updates fl act (pre ++ [u]) w = some w1 ∧
      w1.anim.triggered = true ∧ w1.anim.triggerAt = -1 ∧
      ((w1.anim.active = true ∧ w1.env = runAll act w.anim.onStartCallbacks w.env) ∨
       (w1.anim.active = false ∧ w1.anim.alpha = 1 ∧
        w1.env = runAll act w.anim.onEndCallbacks
                   (runAll act w.anim.onStartCallbacks w.env)))) ∧
    (∃ w2, Solo.updates fl act (pre ++ u :: post) w = some w2 ∧
      w2.anim.triggered = true ∧ w2.anim.triggerAt = -1 ∧
      (∀ now, ¬ w2.anim.fires now) ∧
      (w2.env = runAll act w.anim.onStartCallbacks w.env ∨
       w2.env = runAll act w.anim.onEndCallbacks
                  (runAll act w.anim.onStartCallbacks w.env))) := by
  have hpre' : Solo.updates fl act pre w = some w := by
    clear hu
    induction pre with
    | nil => rfl
    | cons v vs ih =>
      have hv := hpre v (List.mem_cons_self _ _)
      have hf : ¬ w.anim.fires v.2 := fun h => absurd h.2.2 (not_le.mpr hv)
      simp only [Solo.updates, Solo.update_idle fl act v.1 v.2 w hf hidle, Option.some_bind]
      exact ih fun x hx => hpre x (List.mem_cons_of_mem _ hx)
  have hfire : w.anim.fires u.2 := ⟨htau, hnot, hu⟩
  refine ⟨hpre', ?_, ?_⟩
  · rw [Solo.solo_updates_append, hpre']
    by_cases hc : fl (0 + fl (u.1 / w.anim.duration)) ≤ 1
    · refine ⟨{ anim := { w.anim with alpha := fl (0 + fl (u.1 / w.anim.duration)),
                                      active := true, triggerAt := -1, triggered := true },
                env := runAll act w.anim.onStartCallbacks w.env }, ?_,
        rfl, rfl, Or.inl ⟨rfl, rfl⟩⟩
      simp [Solo.updates, Solo.update_fire_run fl act u.1 u.2 w hfire hc]
    · refine ⟨{ anim := { w.anim with alpha := 1, active := false,
                                      triggerAt := -1, triggered := true },
                env := runAll act w.anim.onEndCallbacks
                         (runAll act w.anim.onStartCallbacks w.env) }, ?_,
        rfl, rfl, Or.inr ⟨rfl, rfl, rfl⟩⟩
      simp [Solo.updates, Solo.update_fire_end fl act u.1 u.2 w hfire (not_le.mp hc)]
  · rw [Solo.solo_updates_append, hpre']
    simp only [Option.some_bind, Solo.updates]
    by_cases hc : fl (0 + fl (u.1 / w.anim.duration)) ≤ 1
    · rw [Solo.update_fire_run fl act u.1 u.2 w hfire hc]
      obtain ⟨w2, h1, h2, h3, -, h5⟩ := Solo.updates_untriggered fl act post
        { anim := { w.anim with alpha := fl (0 + fl (u.1 / w.anim.duration)),
                                active := true, triggerAt := -1, triggered := true },
          env := runAll act w.anim.onStartCallbacks w.env } (by norm_num)
      refine ⟨w2, h1, h3, h2, ?_, h5⟩
      intro now hn
      have := hn.1
      rw [h2] at this
      norm_num at this
    · rw [Solo.update_fire_end fl act u.1 u.2 w hfire (not_le.mp hc)]
      refine ⟨{ anim := { w.anim with alpha := 1, active := false,
                                      triggerAt := -1, triggered := true },
                env := runAll act w.anim.onEndCallbacks
                         (runAll act w.anim.onStartCallbacks w.env) },
        Solo.updates_idle fl act post _ (by norm_num) rfl, rfl, rfl, ?_, Or.inr rfl⟩
      intro now hn
      have := hn.1
      norm_num at this

/-- The scenario of C3 in `float`: `triggerAt = 2.0`, calls at `now = 0.5, 1.875`,
then `now = 2`, then `now = 3, 4`, each with `dt = 0.125`. -/
theorem scheduled_trigger_once_witness :
    Solo.updates fl32 record [(1 / 8, 1 / 2), (1 / 8, 15 / 8)] (Solo.scheduled 2) =
      some (Solo.scheduled 2) ∧
    (∃ w1, Solo.updates fl32 record ([(1 / 8, 1 / 2), (1 / 8, 15 / 8)] ++ [(1 / 8, 2)])
        (Solo.scheduled 2) = some w1 ∧
      w1.anim.triggered = true ∧ w1.anim.triggerAt = -1 ∧
      ((w1.anim.active = true ∧
        w1.env = runAll record (Solo.scheduled 2).anim.onStartCallbacks (Solo.scheduled 2).env) ∨
       (w1.anim.active = false ∧ w1.anim.alpha = 1 ∧
        w1.env = runAll record (Solo.scheduled 2).anim.onEndCallbacks
                   (runAll record (Solo.scheduled 2).anim.onStartCallbacks
                     (Solo.scheduled 2).env)))) ∧
    (∃ w2, Solo.updates fl32 record
        ([(1 / 8, 1 / 2), (1 / 8, 15 / 8)] ++ (1 / 8, 2) :: [(1 / 8, 3), (1 / 8, 4)])
        (Solo.scheduled 2) = some w2 ∧
      w2.anim.triggered = true ∧ w2.anim.triggerAt = -1 ∧
      (∀ now, ¬ w2.anim.fires now) ∧
      (w2.env = runAll record (Solo.scheduled 2).anim.onStartCallbacks (Solo.scheduled 2).env ∨
       w2.env = runAll record (Solo.scheduled 2).anim.onEndCallbacks
                  (runAll record (Solo.scheduled 2).anim.onStartCallbacks
                    (Solo.scheduled 2).env))) :=
  scheduled_trigger_once fl32 record (Solo.scheduled 2) _ _ _ rfl rfl
    (by norm_num [Solo.scheduled]) (by norm_num [Solo.scheduled]) (by norm_num [Solo.scheduled])

/-- C4, the claim as stated fails (the run is in `float`): the trigger at
`tau = 2` fires in the update at `now = 3`; after `reset()` alone, the update at
`now = 5 ≥ tau` does not start the animation (it changes nothing). -/
theorem reset_alone_does_not_rearm :
    ∃ w, Solo.update fl32 record (1 / 8) 3 (Solo.scheduled 2) = some w ∧
      w.anim.triggered = true ∧ w.anim.active = true ∧ w.env = [0, 1] ∧
      w.reset.anim.triggered = false ∧ w.reset.anim.triggerAt = -1 ∧
      Solo.update fl32 record (1 / 8) 5 w.reset = some w.reset ∧
      w.reset.anim.active = false ∧ w.reset.env = [0, 1] := by
  refine ⟨_, Solo.update_fire_run fl32 record (1 / 8) 3 (Solo.scheduled 2)
    (by norm_num [Animation.fires, Solo.scheduled])
    (fl32_rounding.first_step_le_one (by norm_num [Solo.scheduled])
      (by norm_num [Solo.scheduled])),
    rfl, rfl, ?_, rfl, rfl, ?_, rfl, ?_⟩
  · simp [Solo.scheduled, runAll, record]
  · exact Solo.update_idle fl32 record (1 / 8) 5 _
      (by norm_num [Animation.fires, Solo.reset, Animation.reset]) rfl
  · simp [Solo.scheduled, Solo.reset, runAll, record]

/-- C4 as amended: `reset()` restores `triggered` to `false` and sets `triggerAt` to
`-1`, so after `reset()` alone no sequence of updates starts the animation; once the
caller has assigned `triggerAt = tau ≥ 0` again after the `reset()`, the next update
with `now ≥ tau` starts the animation (start callbacks invoked once) and leaves
`triggered = true`. -/
theorem reset_then_reassign_rearms (fl : ℚ → ℚ) (act : F → E → E) (w : Solo F E)
    (tau dt now : ℚ) (htau : 0 ≤ tau) (hnow : tau ≤ now) :
    w.reset.anim.triggered = false ∧ w.reset.anim.triggerAt = -1 ∧
    (∀ us, Solo.updates fl act us w.reset = some w.reset) ∧
    ∃ w', Solo.run fl act [SoloOp.setTriggerAt tau, SoloOp.update dt now] w.reset =
        some w' ∧
      w'.anim.triggered = true ∧
      ((w'.anim.active = true ∧ w'.env = runAll act w.anim.onStartCallbacks w.env) ∨
       (w'.anim.active = false ∧ w'.anim.alpha = 1 ∧
        w'.env = runAll act w.anim.onEndCallbacks
                   (runAll act w.anim.onStartCallbacks w.env))) := by
  refine ⟨rfl, rfl, fun us => Solo.updates_idle fl act us _ ?_ rfl, ?_⟩
  · show (-1 : ℚ) < 0
    norm_num
  · have hfire : ({ w.reset with anim := { w.reset.anim with triggerAt := tau } } :
        Solo F E).anim.fires now := ⟨htau, rfl, hnow⟩
    by_cases hc : fl (0 + fl (dt / w.anim.duration)) ≤ 1
    · refine ⟨{ anim := { w.anim with alpha := fl (0 + fl (dt / w.anim.duration)),
                                      active := true, triggerAt := -1, triggered := true },
                env := runAll act w.anim.onStartCallbacks w.env }, ?_, rfl,
        Or.inl ⟨rfl, rfl⟩⟩
      simp only [Solo.run, Solo.apply, Option.some_bind]
      rw [Solo.update_fire_run fl act dt now _ hfire hc]
      rfl
    · refine ⟨{ anim := { w.anim with alpha := 1, active := false,
                                      triggerAt := -1, triggered := true },
                env := runAll act w.anim.onEndCallbacks
                         (runAll act w.anim.onStartCallbacks w.env) }, ?_, rfl,
        Or.inr ⟨rfl, rfl, rfl⟩⟩
      simp only [Solo.run, Solo.apply, Option.some_bind]
      rw [Solo.update_fire_end fl act dt now _ hfire (not_le.mp hc)]
      rfl

/-- C4 as amended, in `float`, at the animation whose trigger `tau = 2` has fired at
`now = 3`: after `reset()` and `triggerAt = 2`, the update at `now = 5` starts it
again. -/
theorem reset_then_reassign_rearms_witness :
    ({ anim := { alpha := 1 / 8, duration := 1, triggerAt := -1, triggered := true,
                 active := true, onStartCallbacks := [0, 1], onEndCallbacks := [2, 3] },
       env := [0, 1] } : Solo ℕ (List ℕ)).reset.anim.triggerAt = -1 ∧
    ∃ w', Solo.run fl32 record [SoloOp.setTriggerAt 2, SoloOp.update (1 / 8) 5]
        ({ anim := { alpha := 1 / 8, duration := 1, triggerAt := -1, triggered := true,
                     active := true, onStartCallbacks := [0, 1], onEndCallbacks := [2, 3] },
           env := [0, 1] } : Solo ℕ (List ℕ)).reset = some w' ∧
      w'.anim.triggered = true ∧
      ((w'.anim.active = true ∧ w'.env = runAll record [0, 1] [0, 1]) ∨
       (w'.anim.active = false ∧ w'.anim.alpha = 1 ∧
        w'.env = runAll record [2, 3] (runAll record [0, 1] [0, 1]))) :=
  have h := reset_then_reassign_rearms fl32 record
    ({ anim := { alpha := 1 / 8, duration := 1, triggerAt := -1, triggered := true,
                 active := true, onStartCallbacks := [0, 1], onEndCallbacks := [2, 3] },
       env := [0, 1] } : Solo ℕ (List ℕ)) 2 (1 / 8) 5 (by norm_num) (by norm_num)
  ⟨h.2.1, h.2.2.2⟩

/-- Updates whose trigger does not fire leave an inactive animation as it is. -/
theorem Solo.updates_frozen (fl : ℚ → ℚ) (act : F → E → E) (us : List (ℚ × ℚ))
    (w : Solo F E) (ha : w.anim.active = false) (hf : ∀ u ∈ us, ¬ w.anim.fires u.2) :
    Solo.updates fl act us w = some w := by
  induction us with
  | nil => rfl
  | cons u us ih =>
    simp only [Solo.updates,
      Solo.update_idle fl act u.1 u.2 w (hf u (List.mem_cons_self _ _)) ha,
      Option.some_bind]
    exact ih fun v hv => hf v (List.mem_cons_of_mem _ hv)

/-- One update with `dt ≥ 0` on a state whose `alpha` is a value of `T` with
`0 ≤ alpha ≤ 1` and whose duration is positive. -/
theorem Solo.update_facts (fl : ℚ → ℚ) (hfl : Rounding fl) (act : F → E → E) (dt now : ℚ)
    (w : Solo F E) (hd : 0 < w.anim.duration) (h0 : 0 ≤ w.anim.alpha)
    (h1 : w.anim.alpha ≤ 1) (hrep : fl w.anim.alpha = w.anim.alpha) (hdt : 0 ≤ dt) :
    ∃ w', Solo.update fl act dt now w = some w' ∧
      0 ≤ w'.anim.alpha ∧ w'.anim.alpha ≤ 1 ∧ fl w'.anim.alpha = w'.anim.alpha ∧
      w'.anim.duration = w.anim.duration ∧
      (w.anim.active = true → ¬ w.anim.fires now → w.anim.alpha ≤ w'.anim.alpha) ∧
      ((w.anim.active = true ∨ w.anim.fires now) → w'.anim.active = false →
        w'.anim.alpha = 1) := by
  have hstep := hfl.le_step hd hrep hdt
  have hstep0 : (0 : ℚ) ≤ fl (0 + fl (dt / w.anim.duration)) := hfl.le_step hd hfl.zero hdt
  by_cases hf : w.anim.fires now
  · by_cases hc : fl (0 + fl (dt / w.anim.duration)) ≤ 1
    · refine ⟨_, Solo.update_fire_run fl act dt now w hf hc, hstep0, hc, hfl.idem _, rfl,
        fun _ h => absurd hf h, fun _ h => ?_⟩
      simp at h
    · exact ⟨_, Solo.update_fire_end fl act dt now w hf (not_le.mp hc), zero_le_one,
        le_refl _, hfl.one, rfl, fun _ h => absurd hf h, fun _ _ => rfl⟩
  · by_cases ha : w.anim.active = true
    · by_cases hc : fl (w.anim.alpha + fl (dt / w.anim.duration)) ≤ 1
      · refine ⟨_, Solo.update_run fl act dt now w hf ha hc, h0.trans hstep, hc, hfl.idem _,
          rfl, fun _ _ => hstep, fun _ h => ?_⟩
        simp [ha] at h
      · exact ⟨_, Solo.update_end fl act dt now w hf ha (not_le.mp hc), zero_le_one,
          le_refl _, hfl.one, rfl, fun _ _ => h1, fun _ _ => rfl⟩
    · have ha' : w.anim.active = false := by simpa using ha
      refine ⟨w, Solo.update_idle fl act dt now w hf ha', h0, h1, hrep, rfl,
        fun _ _ => le_refl _, fun h => ?_⟩
      rcases h with h | h
      · exact absurd h ha
      · exact absurd h hf

/-- Every admissible operation returns and keeps `alpha` a value of `T` with
`0 ≤ alpha ≤ 1`, and the duration positive. -/
theorem Solo.apply_inv (fl : ℚ → ℚ) (hfl : Rounding fl) (act : F → E → E) (w : Solo F E)
    (o : SoloOp) (ho : o.Admissible)
    (hd : 0 < w.anim.duration) (h0 : 0 ≤ w.anim.alpha) (h1 : w.anim.alpha ≤ 1)
    (hrep : fl w.anim.alpha = w.anim.alpha) :
    ∃ w', Solo.apply fl act w o = some w' ∧
      0 < w'.anim.duration ∧ 0 ≤ w'.anim.alpha ∧ w'.anim.alpha ≤ 1 ∧
      fl w'.anim.alpha = w'.anim.alpha := by
  cases o with
  | reset => exact ⟨w.reset, rfl, hd, le_refl _, zero_le_one, hfl.zero⟩
  | start => exact ⟨_, Solo.start_eq act w, hd, le_refl _, zero_le_one, hfl.zero⟩
  | update dt t =>
    obtain ⟨w', hw, h0', h1', hrep', hd', -, -⟩ :=
      Solo.update_facts fl hfl act dt t w hd h0 h1 hrep ho
    exact ⟨w', hw, hd' ▸ hd, h0', h1', hrep'⟩
  | setDuration d => exact ⟨_, rfl, ho, h0, h1, hrep⟩
  | setTriggerAt tau => exact ⟨_, rfl, hd, h0, h1, hrep⟩

/-- Every admissible sequence of operations returns and keeps `alpha` a value of `T`
with `0 ≤ alpha ≤ 1`, and the duration positive. -/
theorem Solo.run_inv (fl : ℚ → ℚ) (hfl : Rounding fl) (act : F → E → E) (ops : List SoloOp)
    (w : Solo F E) (hops : ∀ o ∈ ops, o.Admissible)
    (hd : 0 < w.anim.duration) (h0 : 0 ≤ w.anim.alpha) (h1 : w.anim.alpha ≤ 1)
    (hrep : fl w.anim.alpha = w.anim.alpha) :
    ∃ w', Solo.run fl act ops w = some w' ∧
      0 < w'.anim.duration ∧ 0 ≤ w'.anim.alpha ∧ w'.anim.alpha ≤ 1 ∧
      fl w'.anim.alpha = w'.anim.alpha := by
  induction ops generalizing w with
  | nil => exact ⟨w, rfl, hd, h0, h1, hrep⟩
  | cons o os ih =>
    obtain ⟨w1, hw1, hd1, h01, h11, hr1⟩ :=
      Solo.apply_inv fl hfl act w o (hops o (List.mem_cons_self _ _)) hd h0 h1 hrep
    obtain ⟨w2, hw2, h⟩ :=
      ih w1 (fun x hx => hops x (List.mem_cons_of_mem _ hx)) hd1 h01 h11 hr1
    exact ⟨w2, by simp [Solo.run, hw1, hw2], h⟩

/-- C5: the alpha invariant. Every sequence of `reset()`, `start()`, `update(dt, now)`
with `dt ≥ 0` and assignments of a positive duration or of `triggerAt`, run from
`init()`, returns a state `w` with `0 ≤ alpha ≤ 1`. In such a state every update with
`dt ≥ 0` returns; if the animation is active and the trigger does not fire, `alpha`
does not decrease; and if the update leaves an animation that was active (or that its
trigger started) inactive, then `alpha = 1` and every further sequence of updates whose
trigger does not fire (so that none calls `start()`) leaves the state as it is. -/
theorem alpha_invariant (fl : ℚ → ℚ) (hfl : Rounding fl) (act : F → E → E)
    (a : Animation F) (e : E) (ops : List SoloOp) (hops : ∀ o ∈ ops, o.Admissible) :
    ∃ w, Solo.run fl act ops { anim := a.init, env := e } = some w ∧
      0 ≤ w.anim.alpha ∧ w.anim.alpha ≤ 1 ∧
      ∀ dt now, 0 ≤ dt →
        ∃ w', Solo.update fl act dt now w = some w' ∧
          (w.anim.active = true → ¬ w.anim.fires now → w.anim.alpha ≤ w'.anim.alpha) ∧
          ((w.anim.active = true ∨ w.anim.fires now) → w'.anim.active = false →
            w'.anim.alpha = 1 ∧
            ∀ us, (∀ u ∈ us, ¬ w'.anim.fires u.2) →
              Solo.updates fl act us w' = some w') := by
  obtain ⟨w, hw, hd, h0, h1, hrep⟩ := Solo.run_inv fl hfl act ops
    { anim := a.init, env := e } hops
    (by show (0 : ℚ) < 1; norm_num) (le_refl _) zero_le_one hfl.zero
  refine ⟨w, hw, h0, h1, fun dt now hdt => ?_⟩
  obtain ⟨w', hw', -, -, -, -, hmono, hend⟩ :=
    Solo.update_facts fl hfl act dt now w hd h0 h1 hrep hdt
  exact ⟨w', hw', hmono, fun h hi =>
    ⟨hend h hi, fun us hus => Solo.updates_frozen fl act us w' hi hus⟩⟩

/-- C5 at a concrete run in `float`: `init()`, `duration = 1/2`, `start()`, three
updates with `dt = 0.25`, `triggerAt = 2`, one more update. -/
theorem alpha_invariant_witness :
    Rounding fl32 ∧
    (∀ o ∈ [SoloOp.setDuration (1 / 2), SoloOp.start, SoloOp.update (1 / 4) 0,
        SoloOp.update (1 / 4) 0, SoloOp.update (1 / 4) 0, SoloOp.setTriggerAt 2,
        SoloOp.update (1 / 4) 1], o.Admissible) ∧
    ∃ w, Solo.run fl32 record [SoloOp.setDuration (1 / 2), SoloOp.start,
        SoloOp.update (1 / 4) 0, SoloOp.update (1 / 4) 0, SoloOp.update (1 / 4) 0,
        SoloOp.setTriggerAt 2, SoloOp.update (1 / 4) 1]
        { anim := Solo.midRun.anim.init, env := [] } = some w ∧
      0 ≤ w.anim.alpha ∧ w.anim.alpha ≤ 1 ∧
      ∀ dt now, 0 ≤ dt →
        ∃ w', Solo.update fl32 record dt now w = some w' ∧
          (w.anim.active = true → ¬ w.anim.fires now → w.anim.alpha ≤ w'.anim.alpha) ∧
          ((w.anim.active = true ∨ w.anim.fires now) → w'.anim.active = false →
            w'.anim.alpha = 1 ∧
            ∀ us, (∀ u ∈ us, ¬ w'.anim.fires u.2) →
              Solo.updates fl32 record us w' = some w') :=
  have hadm : ∀ o ∈ [SoloOp.setDuration (1 / 2), SoloOp.start, SoloOp.update (1 / 4) 0,
      SoloOp.update (1 / 4) 0, SoloOp.update (1 / 4) 0, SoloOp.setTriggerAt 2,
      SoloOp.update (1 / 4) 1], o.Admissible := by
    simp [SoloOp.Admissible]
  ⟨fl32_rounding, hadm, alpha_invariant fl32 fl32_rounding record Solo.midRun.anim [] _ hadm⟩

end SoloClaims

/-! ## MusicPlayer: the fade-out -/

theorem MusicPlayer.fade_eq (music : Music) (fading : Animation MusicFn) :
    MusicPlayer.fade (MusicPlayer.new music fading).init.start =
      some (MusicPlayer.during 1 0) := by
  simp [MusicPlayer.fade, MusicPlayer.new, MusicPlayer.init, MusicPlayer.start,
    MusicPlayer.reset, Animation.start, Animation.reset, Animation.init, Animation.onEnd,
    Animation.clearCallbacks, MusicPlayer.fadingRef, invokeAll, MusicPlayer.during,
    StopMusicStream, SetMusicVolume, PlayMusicStream]

theorem MusicPlayer.update_during_run (fl : ℚ → ℚ) (dt t v s : ℚ)
    (h : fl (s + fl (dt / 1)) ≤ 1) :
    MusicPlayer.update fl dt t (MusicPlayer.during v s) =
      some (MusicPlayer.during (fl (1 - fl (s + fl (dt / 1)))) (fl (s + fl (dt / 1)))) := by
  norm_num [MusicPlayer.update, Animation.update, Animation.fires, MusicPlayer.fadingRef,
    MusicPlayer.during, UpdateMusicStream, SetMusicVolume] at h ⊢
  norm_num [not_lt.mpr h]

theorem MusicPlayer.update_during_end (fl : ℚ → ℚ) (dt t v s : ℚ)
    (h : 1 < fl (s + fl (dt / 1))) :
    MusicPlayer.update fl dt t (MusicPlayer.during v s) = some (MusicPlayer.faded v) := by
  norm_num [MusicPlayer.update, Animation.update, Animation.fires, MusicPlayer.fadingRef,
    MusicPlayer.during, MusicPlayer.faded, UpdateMusicStream, SetMusicVolume] at h ⊢
  norm_num [h, invokeAll, MusicPlayer.call, MusicPlayer.stop, StopMusicStream]

theorem MusicPlayer.update_faded (fl : ℚ → ℚ) (dt t v : ℚ) :
    MusicPlayer.update fl dt t (MusicPlayer.faded v) = some (MusicPlayer.faded v) := by
  norm_num [MusicPlayer.update, Animation.update, Animation.fires, MusicPlayer.fadingRef,
    MusicPlayer.faded, UpdateMusicStream]

theorem MusicPlayer.updates_faded (fl : ℚ → ℚ) (us : List (ℚ × ℚ)) (v : ℚ) :
    MusicPlayer.updates fl us (MusicPlayer.faded v) = some (MusicPlayer.faded v) := by
  induction us with
  | nil => rfl
  | cons u us ih => simp [MusicPlayer.updates, MusicPlayer.update_faded, ih]

theorem MusicPlayer.player_updates_pair (fl : ℚ → ℚ) (u : ℚ × ℚ) (us : List (ℚ × ℚ))
    (p : MusicPlayer) :
    MusicPlayer.updates fl (u :: us) p =
      (MusicPlayer.update fl u.1 u.2 p).bind (MusicPlayer.updates fl us) :=
  rfl

theorem MusicPlayer.player_updates_append (fl : ℚ → ℚ) (us vs : List (ℚ × ℚ))
    (p : MusicPlayer) :
    MusicPlayer.updates fl (us ++ vs) p =
      (MusicPlayer.updates fl us p).bind (MusicPlayer.updates fl vs) := by
  induction us generalizing p with
  | nil => rfl
  | cons u us ih =>
    simp only [List.cons_append, MusicPlayer.updates]
    cases MusicPlayer.update fl u.1 u.2 p with
    | none => rfl
    | some p1 => simpa using ih p1

/-- While the running sum of the fade stays at most `1`, the player is fading with
`alpha` the running sum and the volume `1 - alpha` as computed in `T`. -/
theorem MusicPlayer.updates_during (fl : ℚ → ℚ) (hfl : Rounding fl) (us : List (ℚ × ℚ))
    (v s : ℚ) (hrep : fl s = s) (hv : v = fl (1 - s)) (hdt : ∀ u ∈ us, 0 ≤ u.1)
    (h : accumulate fl 1 s us ≤ 1) :
    MusicPlayer.updates fl us (MusicPlayer.during v s) =
      some (MusicPlayer.during (fl (1 - accumulate fl 1 s us)) (accumulate fl 1 s us)) := by
  induction us generalizing v s with
  | nil =>
    subst hv
    rfl
  | cons u us ih =>
    have hus : ∀ w ∈ us, 0 ≤ w.1 := fun w hw => hdt w (List.mem_cons_of_mem _ hw)
    rw [accumulate_cons] at h ⊢
    have hge := accumulate_ge fl hfl 1 (fl (s + fl (u.1 / 1))) one_pos (hfl.idem _) us hus
    rw [MusicPlayer.player_updates_pair,
      MusicPlayer.update_during_run fl u.1 u.2 v s (hge.trans h), Option.some_bind]
    exact ih _ _ (hfl.idem _) rfl hus h

/-- In `float`, the update `dt = 0.5` of the fade started by `fade()`. -/
theorem MusicPlayer.update_half :
    MusicPlayer.update fl32 (1 / 2) 0 (MusicPlayer.during 1 0) =
      some (MusicPlayer.during (1 / 2) (1 / 2)) := by
  have h1 : fl32 (0 + fl32 (1 / 2 / 1)) = 1 / 2 := by
    rw [div_one, fl32_half, zero_add, fl32_half]
  have h2 : fl32 (1 - 1 / 2) = 1 / 2 := by
    have e : (1 : ℚ) - 1 / 2 = 1 / 2 := by norm_num
    rw [e, fl32_half]
  rw [MusicPlayer.update_during_run fl32 (1 / 2) 0 1 0 (by rw [h1]; norm_num), h1, h2]

/-- C8, the claim as stated fails; the run is in `float`. After `init()`,
`start()`, `fade()`, the update with `dt = 0.5` brings `fading.alpha` to `0.5` and the
volume to `0.5`; the next update (`dt = 1`) completes the fade and stops playback, and
leaves the volume at `0.5` while `1 - fading.alpha = 0`. -/
theorem fade_out_volume_at_completion :
    ∃ p, MusicPlayer.fadeOut fl32 { playing := false, volume := 1 } (Animation.zeroed MusicFn)
        [(1 / 2, 0), (1, 0)] = some p ∧
      p.fading.alpha = 1 ∧ p.fading.active = false ∧ p.playing = false ∧
      p.music.volume = 1 / 2 ∧ p.music.volume ≠ 1 - p.fading.alpha := by
  have h2 : (1 : ℚ) < fl32 (1 / 2 + fl32 (1 / 1)) := by
    have e : (1 : ℚ) / 2 + 1 = 3 / 2 := by norm_num
    rw [div_one, fl32_rounding.one, e, fl32_three_halves]
    norm_num
  refine ⟨MusicPlayer.faded (1 / 2), ?_, rfl, rfl, rfl, rfl, ?_⟩
  · rw [MusicPlayer.fadeOut, MusicPlayer.fade_eq, Option.some_bind,
      MusicPlayer.player_updates_pair, MusicPlayer.update_half, Option.some_bind,
      MusicPlayer.player_updates_pair,
      MusicPlayer.update_during_end fl32 1 0 (1 / 2) (1 / 2) h2, Option.some_bind]
    rfl
  · norm_num [MusicPlayer.faded]

/-- C8 as amended. After `init()`, `start()`, `fade()` and updates with `dt ≥ 0`, let
`s` be the running sum that the statements `alpha += dt / duration` of these updates
compute in the arithmetic of `T` from `0` (in exact arithmetic, the cumulative `dt`).
As long as `s ≤ 1` (the fade has not completed) playback is on, `fading` is active with
`alpha = s`, and the volume is `1 - fading.alpha` as computed in `T`; the running sum
never decreases, so that no earlier update has completed the fade. The update `u` that
takes the running sum above `1` completes the fade: it stops playback and does not set
the volume; after it, and after any further updates, playback is off, `alpha = 1` and
the volume is still `1 - s` for the running sum `s` before `u`. -/
theorem fade_out_volume (fl : ℚ → ℚ) (hfl : Rounding fl) (music : Music)
    (fading : Animation MusicFn) (pre post : List (ℚ × ℚ)) (u : ℚ × ℚ)
    (hpre : ∀ v ∈ pre, 0 ≤ v.1) (h1 : accumulate fl 1 0 pre ≤ 1) :
    ((∀ x, fl x = x) → accumulate fl 1 0 pre = totalDt pre) ∧
    (∀ j, accumulate fl 1 0 (pre.take j) ≤ accumulate fl 1 0 pre) ∧
    (∃ p, MusicPlayer.fadeOut fl music fading pre = some p ∧
      p.playing = true ∧ p.fading.active = true ∧ p.fading.alpha = accumulate fl 1 0 pre ∧
      p.music.volume = fl (1 - p.fading.alpha)) ∧
    (1 < fl (accumulate fl 1 0 pre + fl (u.1 / 1)) →
      ∃ p, MusicPlayer.fadeOut fl music fading (pre ++ u :: post) = some p ∧
        p.playing = false ∧ p.fading.active = false ∧ p.fading.alpha = 1 ∧
        p.music.volume = fl (1 - accumulate fl 1 0 pre)) := by
  have hrun := MusicPlayer.updates_during fl hfl pre 1 0 hfl.zero
    (by rw [sub_zero, hfl.one]) hpre h1
  refine ⟨fun hid => ?_, accumulate_take_le fl hfl 1 one_pos pre hpre, ?_, ?_⟩
  · rw [accumulate_exact fl hid, zero_add, div_one]
  · exact ⟨MusicPlayer.during (fl (1 - accumulate fl 1 0 pre)) (accumulate fl 1 0 pre),
      by simp only [MusicPlayer.fadeOut, MusicPlayer.fade_eq, Option.some_bind, hrun],
      rfl, rfl, rfl, rfl⟩
  · intro hu
    refine ⟨MusicPlayer.faded (fl (1 - accumulate fl 1 0 pre)), ?_, rfl, rfl, rfl, rfl⟩
    simp only [MusicPlayer.fadeOut, MusicPlayer.fade_eq, Option.some_bind,
      MusicPlayer.player_updates_append, hrun, MusicPlayer.updates,
      MusicPlayer.update_during_end fl u.1 u.2 _ _ hu, MusicPlayer.updates_faded]

/-- C8 as amended, in `float`: after the update `dt = 0.5` the fade is running with
`alpha = 0.5` and the volume `0.5`; the update `dt = 1` completes it, and after it and
one more update playback is off, `alpha = 1` and the volume is still `0.5`. -/
theorem fade_out_volume_witness :
    (∃ p, MusicPlayer.fadeOut fl32 { playing := false, volume := 1 }
        (Animation.zeroed MusicFn) [(1 / 2, 0)] = some p ∧
      p.playing = true ∧ p.fading.active = true ∧ p.fading.alpha = 1 / 2 ∧
      p.music.volume = 1 / 2) ∧
    (∃ p, MusicPlayer.fadeOut fl32 { playing := false, volume := 1 }
        (Animation.zeroed MusicFn) ([(1 / 2, 0)] ++ (1, 0) :: [(1, 0)]) = some p ∧
      p.playing = false ∧ p.fading.active = false ∧ p.fading.alpha = 1 ∧
      p.music.volume = 1 / 2) := by
  have hacc : accumulate fl32 1 0 [(1 / 2, 0)] = 1 / 2 := by
    show fl32 (0 + fl32 (1 / 2 / 1)) = 1 / 2
    rw [div_one, fl32_half, zero_add, fl32_half]
  have hvol : fl32 (1 - 1 / 2) = 1 / 2 := by
    rw [show (1 : ℚ) - 1 / 2 = 1 / 2 by norm_num, fl32_half]
  have hend : 1 < fl32 (accumulate fl32 1 0 [(1 / 2, 0)] + fl32 (((1 : ℚ), (0 : ℚ)).1 / 1)) := by
    rw [hacc]
    show 1 < fl32 (1 / 2 + fl32 (1 / 1))
    rw [div_one, fl32_rounding.one, show (1 : ℚ) / 2 + 1 = 3 / 2 by norm_num,
      fl32_three_halves]
    norm_num
  obtain ⟨-, -, ⟨p, hp, h1, h2, h3, h4⟩, h⟩ :=
    fade_out_volume fl32 fl32_rounding { playing := false, volume := 1 }
      (Animation.zeroed MusicFn) [(1 / 2, 0)] [(1, 0)] (1, 0) (by norm_num)
      (by rw [hacc]; norm_num)
  obtain ⟨q, hq, g1, g2, g3, g4⟩ := h hend
  rw [hacc] at h3 g4
  rw [h3, hvol] at h4
  rw [hvol] at g4
  exact ⟨⟨p, hp, h1, h2, h3, h4⟩, ⟨q, hq, g1, g2, g3, g4⟩⟩

/-! ## Shaker: the offset and the envelope -/

/-- The call `shake()` on a wired `Shaker` returns; both animations run from `alpha = 0`
and the offset is the one drawn by the start callback of `ofsCycle`. -/
theorem Shaker.shake_step (c : Libc) (fl : ℚ → ℚ) (n : ℕ) (s : Shaker)
    (h1 : s.ofsCycle.onStartCallbacks = [.ofsCycleOnStart])
    (h2 : s.ofsCycle.onEndCallbacks = [.ofsCycleOnEnd])
    (h3 : s.fullShake.onStartCallbacks = []) (h4 : s.fullShake.onEndCallbacks = []) :
    ∃ s', Shaker.shake c fl (n + 2) s = some s' ∧ s'.Wired ∧
      s'.xmag = s.xmag ∧ s'.ymag = s.ymag ∧
      s'.fullShake.duration = s.fullShake.duration ∧
      s'.ofsCycle.duration = s.ofsCycle.duration ∧
      s'.fullShake.active = true ∧ s'.fullShake.alpha = 0 ∧
      s'.ofsCycle.active = true ∧ s'.ofsCycle.alpha = 0 ∧
      s'.xofs = Shaker.offset c fl (c.rand01 s.randCalls) s.xmag
        (fl (c.pow25 (fl (1 - s'.fullShake.alpha)))) ∧
      s'.yofs = Shaker.offset c fl (c.rand01 (s.randCalls + 1)) s.ymag
        (fl (c.pow25 (fl (1 - s'.fullShake.alpha)))) ∧
      s'.randCalls = s.randCalls + 2 := by
  obtain ⟨⟨oa, od, ot, otr, oact, os, oe⟩, ⟨fa, fd, ft, ftr, fact, fs, fe⟩, xm, ym, xo, yo, k⟩ := s
  simp only at h1 h2 h3 h4
  subst h1 h2 h3 h4
  simp [Shaker.shake, Animation.start, Animation.reset, invokeAll, Shaker.call,
    Shaker.fullShakeRef, Shaker.ofsCycleRef, Shaker.Wired]

set_option maxHeartbeats 1600000 in
/-- The call `update(dt, t)` on a wired `Shaker` returns, and the cases of what it does
to `fullShake` and to `ofsCycle` and the offset. -/
theorem Shaker.update_step (c : Libc) (fl : ℚ → ℚ) (n : ℕ) (dt t : ℚ) (s : Shaker)
    (hw : s.Wired) :
    ∃ s', Shaker.update c fl (n + 2) dt t s = some s' ∧ s'.Wired ∧
      s'.xmag = s.xmag ∧ s'.ymag = s.ymag ∧
      s'.fullShake.duration = s.fullShake.duration ∧
      s'.ofsCycle.duration = s.ofsCycle.duration ∧
      ((s.fullShake.active = false ∧ s'.fullShake.active = false ∧
          s'.fullShake.alpha = s.fullShake.alpha) ∨
       (s.fullShake.active = true ∧
          fl (s.fullShake.alpha + fl (dt / s.fullShake.duration)) ≤ 1 ∧
          s'.fullShake.active = true ∧
          s'.fullShake.alpha = fl (s.fullShake.alpha + fl (dt / s.fullShake.duration))) ∨
       (s.fullShake.active = true ∧
          1 < fl (s.fullShake.alpha + fl (dt / s.fullShake.duration)) ∧
          s'.fullShake.active = false ∧ s'.fullShake.alpha = 1)) ∧
      ((s.ofsCycle.active = false ∧ s'.ofsCycle.active = false ∧
          s'.xofs = s.xofs ∧ s'.yofs = s.yofs ∧ s'.randCalls = s.randCalls) ∨
       (s.ofsCycle.active = true ∧
          fl (s.ofsCycle.alpha + fl (dt / s.ofsCycle.duration)) ≤ 1 ∧
          s'.ofsCycle.active = true ∧
          s'.ofsCycle.alpha = fl (s.ofsCycle.alpha + fl (dt / s.ofsCycle.duration)) ∧
          s'.xofs = s.xofs ∧ s'.yofs = s.yofs ∧ s'.randCalls = s.randCalls) ∨
       (s.ofsCycle.active = true ∧
          1 < fl (s.ofsCycle.alpha + fl (dt / s.ofsCycle.duration)) ∧
          s'.fullShake.active = false ∧ s'.ofsCycle.active = false ∧
          s'.xofs = 0 ∧ s'.yofs = 0 ∧ s'.randCalls = s.randCalls) ∨
       (s.ofsCycle.active = true ∧
          1 < fl (s.ofsCycle.alpha + fl (dt / s.ofsCycle.duration)) ∧
          s'.fullShake.active = true ∧ s'.ofsCycle.active = true ∧
          s'.ofsCycle.alpha = 0 ∧
          s'.xofs = Shaker.offset c fl (c.rand01 s.randCalls) s.xmag
            (fl (c.pow25 (fl (1 - s'.fullShake.alpha)))) ∧
          s'.yofs = Shaker.offset c fl (c.rand01 (s.randCalls + 1)) s.ymag
            (fl (c.pow25 (fl (1 - s'.fullShake.alpha)))) ∧
          s'.randCalls = s.randCalls + 2)) := by
  obtain ⟨⟨oa, od, ot, otr, oact, os, oe⟩, ⟨fa, fd, ft, ftr, fact, fs, fe⟩, xm, ym, xo, yo, k⟩ := s
  obtain ⟨h1, h2, h3, h4, h5, h6⟩ := hw
  simp only at h1 h2 h3 h4 h5 h6
  subst h1 h2 h3 h4 h5 h6
  rcases lt_or_le 1 (fl (fa + fl (dt / fd))) with hf | hf <;>
    rcases lt_or_le 1 (fl (oa + fl (dt / od))) with ho | ho
  · cases fact <;> cases oact <;>
      norm_num [Shaker.update, Animation.update, Animation.fires, Animation.start,
        Animation.reset, invokeAll, Shaker.call, Shaker.fullShakeRef, Shaker.ofsCycleRef,
        Shaker.Wired, hf, ho, not_le.mpr hf, not_le.mpr ho]
  · cases fact <;> cases oact <;>
      norm_num [Shaker.update, Animation.update, Animation.fires, Animation.start,
        Animation.reset, invokeAll, Shaker.call, Shaker.fullShakeRef, Shaker.ofsCycleRef,
        Shaker.Wired, hf, ho, not_le.mpr hf, not_lt.mpr ho]
  · cases fact <;> cases oact <;>
      norm_num [Shaker.update, Animation.update, Animation.fires, Animation.start,
        Animation.reset, invokeAll, Shaker.call, Shaker.fullShakeRef, Shaker.ofsCycleRef,
        Shaker.Wired, hf, ho, not_lt.mpr hf, not_le.mpr ho]
  · cases fact <;> cases oact <;>
      norm_num [Shaker.update, Animation.update, Animation.fires, Animation.start,
        Animation.reset, invokeAll, Shaker.call, Shaker.fullShakeRef, Shaker.ofsCycleRef,
        Shaker.Wired, hf, ho, not_lt.mpr hf, not_lt.mpr ho]

/-- The call `shake()` establishes the invariant. -/
theorem Shaker.shake_inv (c : Libc) (fl : ℚ → ℚ) (n : ℕ) (s : Shaker)
    (h1 : s.ofsCycle.onStartCallbacks = [.ofsCycleOnStart])
    (h2 : s.ofsCycle.onEndCallbacks = [.ofsCycleOnEnd])
    (h3 : s.fullShake.onStartCallbacks = []) (h4 : s.fullShake.onEndCallbacks = [])
    (hx : s.xmag = 15) (hy : s.ymag = 15)
    (hfd : s.fullShake.duration = fl (1 / 2)) (hod : s.ofsCycle.duration = fl (1 / 40)) :
    ∃ s', Shaker.shake c fl (n + 2) s = some s' ∧
      ∀ H : Shaker → Prop, H s' → Shaker.Inv c fl H s' := by
  obtain ⟨s', hs', hw', hx', hy', hfd', hod', hfa, hf0, hoa, ho0, hxo, hyo, -⟩ :=
    Shaker.shake_step c fl n s h1 h2 h3 h4
  refine ⟨s', hs', fun H hH => ⟨hw', hx'.trans hx, hy'.trans hy, hfd'.trans hfd,
    hod'.trans hod, ?_, ?_, ?_⟩⟩
  · rw [hf0]
    exact zero_le_one
  · intro h
    rw [hoa] at h
    cases h
  · intro _
    refine ⟨s'.fullShake.alpha, s.randCalls, s', hH, hfa, rfl, ho0, rfl, rfl, ?_, ?_, ?_,
      fun _ => ⟨?_, fun _ => ?_, fun h => ?_⟩⟩
    · rw [hf0]
      exact zero_le_one
    · rw [hxo, hx]
    · rw [hyo, hy]
    · rw [ho0]
      exact zero_le_one
    · rw [ho0]
      norm_num
    · rw [hfa] at h
      cases h

/-- The call `update(dt, t)` keeps the invariant, and draws no offset once `fullShake`
is no longer active. -/
theorem Shaker.update_inv (c : Libc) (fl : ℚ → ℚ) (n : ℕ) (dt t : ℚ) (H : Shaker → Prop)
    (s : Shaker) (h : Shaker.Inv c fl H s) :
    ∃ s', Shaker.update c fl (n + 2) dt t s = some s' ∧
      (∀ H' : Shaker → Prop, (∀ x, H x → H' x) → H' s' → Shaker.Inv c fl H' s') ∧
      (s.fullShake.active = false →
        s'.randCalls = s.randCalls ∧
        ((s'.ofsCycle.active = true ∧ s'.xofs = s.xofs ∧ s'.yofs = s.yofs) ∨
         (s'.ofsCycle.active = false ∧ s'.xofs = 0 ∧ s'.yofs = 0))) := by
  obtain ⟨hw, hx, hy, hfd, hod, hle, hz, hd⟩ := h
  obtain ⟨s', hs', hw', hx', hy', hfd', hod', hF, hO⟩ := Shaker.update_step c fl n dt t s hw
  have hle' : s'.fullShake.alpha ≤ 1 := by
    rcases hF with ⟨-, -, e⟩ | ⟨-, hc, -, e⟩ | ⟨-, -, -, e⟩
    · rw [e]
      exact hle
    · rw [e]
      exact hc
    · rw [e]
  refine ⟨s', hs', fun H' hHH hH' => ⟨hw', hx'.trans hx, hy'.trans hy, hfd'.trans hfd,
    hod'.trans hod, hle', ?_, ?_⟩, ?_⟩
  · intro hi
    rcases hO with ⟨ha, -, ex, ey, -⟩ | ⟨-, -, ha, -⟩ | ⟨-, -, -, -, ex, ey, -⟩ |
      ⟨-, -, -, ha, -⟩
    · rw [ex, ey]
      exact hz ha
    · rw [ha] at hi
      cases hi
    · exact ⟨ex, ey⟩
    · rw [ha] at hi
      cases hi
  · intro hi
    rcases hO with ⟨-, ha, -⟩ | ⟨ha, hc, -, eo, ex, ey, -⟩ | ⟨-, -, -, ha, -⟩ |
      ⟨-, -, hfa, -, eo, ex, ey, -⟩
    · rw [ha] at hi
      cases hi
    · obtain ⟨a, j, s0, hs0, hact0, hal0, hoz0, hx0, hy0, ha1, hxa, hya, hex⟩ := hd ha
      refine ⟨a, j, s0, hHH s0 hs0, hact0, hal0, hoz0, by rw [ex, hx0], by rw [ey, hy0], ha1,
        by rw [ex, hxa], by rw [ey, hya], fun hid => ?_⟩
      obtain ⟨-, hrun, hdone⟩ := hex hid
      have hfd2 : s.fullShake.duration = 1 / 2 := by rw [hfd, hid]
      have hod2 : s.ofsCycle.duration = 1 / 40 := by rw [hod, hid]
      have eo2 : s'.ofsCycle.alpha = s.ofsCycle.alpha + dt * 40 := by
        rw [eo, hid, hid, hod2]
        ring
      have hc2 : s.ofsCycle.alpha + dt * 40 ≤ 1 := by
        rw [hid, hid, hod2] at hc
        linarith
      refine ⟨by rw [eo2]; exact hc2, fun hact => ?_, fun hact => ?_⟩
      · rcases hF with ⟨-, hn, -⟩ | ⟨hfa, -, -, ef⟩ | ⟨-, -, hn, -⟩
        · rw [hn] at hact
          cases hact
        · rw [ef, hid, hid, hfd2, eo2, hrun hfa]
          ring
        · rw [hn] at hact
          cases hact
      · rcases hF with ⟨hfa, -, -⟩ | ⟨-, -, hn, -⟩ | ⟨hfa, hgt, -, -⟩
        · exact hdone hfa
        · rw [hn] at hact
          cases hact
        · rw [hid, hid, hfd2, hrun hfa] at hgt
          linarith
    · rw [ha] at hi
      cases hi
    · refine ⟨s'.fullShake.alpha, s.randCalls, s', hH', hfa, rfl, eo, rfl, rfl, hle',
        by rw [ex, hx], by rw [ey, hy], fun _ => ⟨?_, fun _ => ?_, fun hn => ?_⟩⟩
      · rw [eo]
        exact zero_le_one
      · rw [eo]
        norm_num
      · rw [hfa] at hn
        cases hn
  · intro hfi
    have hfi' : s'.fullShake.active = false := by
      rcases hF with ⟨-, e, -⟩ | ⟨e, -⟩ | ⟨e, -⟩
      · exact e
      · rw [hfi] at e
        cases e
      · rw [hfi] at e
        cases e
    rcases hO with ⟨ha, ha', ex, ey, er⟩ | ⟨-, -, ha', -, ex, ey, er⟩ |
      ⟨-, -, -, ha', ex, ey, er⟩ | ⟨-, -, hfa, -⟩
    · refine ⟨er, Or.inr ⟨ha', ?_, ?_⟩⟩
      · rw [ex]
        exact (hz ha).1
      · rw [ey]
        exact (hz ha).2
    · exact ⟨er, Or.inl ⟨ha', ex, ey⟩⟩
    · exact ⟨er, Or.inr ⟨ha', ex, ey⟩⟩
    · rw [hfi'] at hfa
      cases hfa

theorem Shaker.shaker_run_append (c : Libc) (fl : ℚ → ℚ) (fuel : ℕ)
    (xs ys : List ShakerOp) (s : Shaker) :
    Shaker.run c fl fuel (xs ++ ys) s =
      (Shaker.run c fl fuel xs s).bind (Shaker.run c fl fuel ys) := by
  induction xs generalizing s with
  | nil => rfl
  | cons x xs ih =>
    simp only [List.cons_append, Shaker.run]
    cases Shaker.apply c fl fuel s x with
    | none => rfl
    | some s1 => simpa using ih s1

/-- The run with one more call. -/
theorem Shaker.session_snoc (c : Libc) (fl : ℚ → ℚ) (fuel : ℕ) (o f : Animation ShakerFn)
    (k : ℕ) (pre : List ShakerOp) (op : ShakerOp) :
    Shaker.session c fl fuel o f k (pre ++ [op]) =
      (Shaker.session c fl fuel o f k pre).bind fun s => Shaker.apply c fl fuel s op := by
  unfold Shaker.session
  cases Shaker.shake c fl fuel ((Shaker.new o f k).init fl) with
  | none => rfl
  | some s1 =>
    simp only [Option.some_bind, Shaker.shaker_run_append]
    cases Shaker.run c fl fuel pre s1 with
    | none => rfl
    | some s2 =>
      simp only [Option.some_bind, Shaker.run]
      cases Shaker.apply c fl fuel s2 op with
      | none => rfl
      | some s3 => rfl

/-- A state of a run is a state of every longer run. -/
theorem Shaker.seen_snoc (c : Libc) (fl : ℚ → ℚ) (fuel : ℕ) (o f : Animation ShakerFn)
    (k : ℕ) (pre : List ShakerOp) (op : ShakerOp) (x : Shaker)
    (h : Shaker.Seen c fl fuel o f k pre x) : Shaker.Seen c fl fuel o f k (pre ++ [op]) x := by
  obtain ⟨m, hm, hx⟩ := h
  refine ⟨m, ?_, ?_⟩
  · rw [List.length_append]
    exact Nat.le_add_right_of_le hm
  · rw [List.take_append_of_le_length hm]
    exact hx

/-- The final state of a run is a state of the run. -/
theorem Shaker.seen_last (c : Libc) (fl : ℚ → ℚ) (fuel : ℕ) (o f : Animation ShakerFn)
    (k : ℕ) (ops : List ShakerOp) (x : Shaker)
    (h : Shaker.session c fl fuel o f k ops = some x) : Shaker.Seen c fl fuel o f k ops x :=
  ⟨ops.length, le_refl _, by rw [List.take_length]; exact h⟩

/-- A sequence of `shake()` and `update(dt, t)` calls keeps the invariant. -/
theorem Shaker.shaker_run_inv (c : Libc) (fl : ℚ → ℚ) (n : ℕ) (o f : Animation ShakerFn)
    (k : ℕ) (ops pre : List ShakerOp) (s : Shaker)
    (hs : Shaker.session c fl (n + 2) o f k pre = some s)
    (h : Shaker.Inv c fl (Shaker.Seen c fl (n + 2) o f k pre) s) :
    ∃ s', Shaker.session c fl (n + 2) o f k (pre ++ ops) = some s' ∧
      Shaker.Inv c fl (Shaker.Seen c fl (n + 2) o f k (pre ++ ops)) s' := by
  induction ops generalizing pre s with
  | nil =>
    rw [List.append_nil]
    exact ⟨s, hs, h⟩
  | cons op ops ih =>
    have hsnoc : ∀ s1, Shaker.apply c fl (n + 2) s op = some s1 →
        Shaker.session c fl (n + 2) o f k (pre ++ [op]) = some s1 := by
      intro s1 hs1
      rw [Shaker.session_snoc, hs]
      exact hs1
    have step : ∃ s1, Shaker.apply c fl (n + 2) s op = some s1 ∧
        Shaker.Inv c fl (Shaker.Seen c fl (n + 2) o f k (pre ++ [op])) s1 := by
      cases op with
      | shake =>
        obtain ⟨hw, hx, hy, hfd, hod, -⟩ := h
        obtain ⟨s1, hs1, h1⟩ :=
          Shaker.shake_inv c fl n s hw.1 hw.2.1 hw.2.2.1 hw.2.2.2.1 hx hy hfd hod
        exact ⟨s1, hs1, h1 _ (Shaker.seen_last c fl (n + 2) o f k _ s1 (hsnoc s1 hs1))⟩
      | update dt t =>
        obtain ⟨s1, hs1, h1, -⟩ := Shaker.update_inv c fl n dt t _ s h
        exact ⟨s1, hs1, h1 _ (fun x hx => Shaker.seen_snoc c fl (n + 2) o f k pre _ x hx)
          (Shaker.seen_last c fl (n + 2) o f k _ s1 (hsnoc s1 hs1))⟩
    obtain ⟨s1, hs1, h1⟩ := step
    obtain ⟨s2, hs2, h2⟩ := ih (pre ++ [op]) s1 (hsnoc s1 hs1) h1
    rw [List.append_assoc, List.singleton_append] at hs2 h2
    exact ⟨s2, hs2, h2⟩

/-- After `init()`, a first `shake()` and any further calls, the invariant holds. -/
theorem Shaker.session_inv (c : Libc) (fl : ℚ → ℚ) (n : ℕ) (o f : Animation ShakerFn)
    (k : ℕ) (ops : List ShakerOp) :
    ∃ s, Shaker.session c fl (n + 2) o f k ops = some s ∧
      Shaker.Inv c fl (Shaker.Seen c fl (n + 2) o f k ops) s := by
  obtain ⟨s1, hs1, h1⟩ := Shaker.shake_inv c fl n ((Shaker.new o f k).init fl)
    (by simp [Shaker.init, Shaker.new, Animation.onStart, Animation.onEnd,
      Animation.clearCallbacks])
    (by simp [Shaker.init, Shaker.new, Animation.onStart, Animation.onEnd,
      Animation.clearCallbacks])
    (by simp [Shaker.init, Shaker.new, Animation.onStart, Animation.onEnd,
      Animation.clearCallbacks])
    (by simp [Shaker.init, Shaker.new, Animation.onStart, Animation.onEnd,
      Animation.clearCallbacks])
    rfl rfl rfl rfl
  have hs0 : Shaker.session c fl (n + 2) o f k [] = some s1 := by
    simp [Shaker.session, Shaker.run, hs1]
  have := Shaker.shaker_run_inv c fl n o f k ops [] s1 hs0
    (h1 _ (Shaker.seen_last c fl (n + 2) o f k [] s1 hs0))
  rwa [List.nil_append] at this

theorem Libc.demo_pow25_one : Libc.demo.pow25 1 = 1 := by
  have h : Rat.sqrt 1 = 1 := by simp
  simp [Libc.demo, h]

theorem Libc.demo_pow25_small : Libc.demo.pow25 (1 / 64) = 1 / 32768 := by
  have h : Rat.sqrt (1 / 64) = 1 / 8 := by
    have := Rat.sqrt_eq (1 / 8)
    rw [show ((1 : ℚ) / 8) * (1 / 8) = 1 / 64 by norm_num] at this
    rw [this]
    norm_num [abs_of_pos]
  simp only [Libc.demo, h]
  norm_num

/-- The constant `0.025` as a `float` lies between `1/64` and `1/8`. -/
theorem fl32_fortieth : 1 / 64 ≤ fl32 (1 / 40) ∧ fl32 (1 / 40) ≤ 1 / 8 := by
  have h1 : fl32 (1 / 64) = 1 / 64 := by
    have := fl32_exact 1 (-6) (by norm_num) (by norm_num)
    norm_num at this ⊢
    exact this
  have h2 : fl32 (1 / 8) = 1 / 8 := by
    have := fl32_exact 1 (-3) (by norm_num) (by norm_num)
    norm_num at this ⊢
    exact this
  have a := fl32_rounding.mono (1 / 64) (1 / 40) (by norm_num)
  have b := fl32_rounding.mono (1 / 40) (1 / 8) (by norm_num)
  rw [h1] at a
  rw [h2] at b
  exact ⟨a, b⟩

/-- In `float`, the draw of the start callback at `fullShake.alpha = 63/64` with
`rand() = RAND_MAX`. -/
theorem Shaker.draw_late (j : ℕ) :
    Shaker.offset Libc.demo fl32 (Libc.demo.rand01 j) 15
      (fl32 (Libc.demo.pow25 (fl32 (1 - 63 / 64)))) = 15 / 32768 := by
  have h1 : fl32 (1 / 64) = 1 / 64 := by
    have := fl32_exact 1 (-6) (by norm_num) (by norm_num)
    norm_num at this ⊢
    exact this
  have h2 : fl32 (1 / 32768) = 1 / 32768 := by
    have := fl32_exact 1 (-15) (by norm_num) (by norm_num)
    norm_num at this ⊢
    exact this
  have h3 : fl32 (15 / 32768) = 15 / 32768 := by
    have := fl32_exact 15 (-15) (by norm_num) (by norm_num)
    norm_num at this ⊢
    exact this
  have e1 : (1 : ℚ) - 63 / 64 = 1 / 64 := by norm_num
  have e2 : ((1 : ℚ) * 2 * 15 - 15) * (1 / 32768) = 15 / 32768 := by norm_num
  rw [e1, h1, Libc.demo_pow25_small, h2]
  show fl32 (((1 : ℚ) * 2 * 15 - 15) * (1 / 32768)) = 15 / 32768
  rw [e2, h3]

/-- In `float`, the two `fullShake` steps of the run below: `0 + (63/128) / 0.5` is
`63/64`, and `63/64 + (1/64) / 0.5` is `65/64`. -/
theorem Shaker.envelope_steps :
    fl32 (0 + fl32 (63 / 128 / fl32 (1 / 2))) = 63 / 64 ∧
    fl32 (63 / 64 + fl32 (1 / 64 / fl32 (1 / 2))) = 65 / 64 := by
  have h1 : fl32 (63 / 64) = 63 / 64 := by
    have := fl32_exact 63 (-6) (by norm_num) (by norm_num)
    norm_num at this ⊢
    exact this
  have h2 : fl32 (1 / 32) = 1 / 32 := by
    have := fl32_exact 1 (-5) (by norm_num) (by norm_num)
    norm_num at this ⊢
    exact this
  have h3 : fl32 (65 / 64) = 65 / 64 := by
    have := fl32_exact 65 (-6) (by norm_num) (by norm_num)
    norm_num at this ⊢
    exact this
  have e1 : (63 : ℚ) / 128 / (1 / 2) = 63 / 64 := by norm_num
  have e2 : (1 : ℚ) / 64 / (1 / 2) = 1 / 32 := by norm_num
  have e3 : (63 : ℚ) / 64 + 1 / 32 = 65 / 64 := by norm_num
  constructor
  · rw [fl32_half, e1, h1, zero_add, h1]
  · rw [fl32_half, e2, h2, e3, h3]

/-- In `float`, the two `ofsCycle` steps of the run below: `0 + (63/128) / 0.025`
exceeds `1`, and `0 + (1/64) / 0.025` does not. -/
theorem Shaker.cycle_steps :
    1 < fl32 (0 + fl32 (63 / 128 / fl32 (1 / 40))) ∧
    fl32 (0 + fl32 (1 / 64 / fl32 (1 / 40))) ≤ 1 := by
  obtain ⟨hlo, hhi⟩ := fl32_fortieth
  have hpos : (0 : ℚ) < fl32 (1 / 40) := lt_of_lt_of_le (by norm_num) hlo
  have h2 : fl32 2 = 2 := by
    have := fl32_exact 2 0 (by norm_num) (by norm_num)
    norm_num at this ⊢
    exact this
  constructor
  · have hq : (2 : ℚ) ≤ 63 / 128 / fl32 (1 / 40) := by
      rw [le_div_iff₀ hpos]
      linarith
    have := fl32_rounding.mono _ _ hq
    rw [h2] at this
    rw [zero_add, fl32_rounding.idem]
    linarith
  · have hq : (1 : ℚ) / 64 / fl32 (1 / 40) ≤ 1 := by
      rw [div_le_one hpos]
      exact hlo
    have := fl32_rounding.mono _ _ hq
    rw [fl32_rounding.one] at this
    rw [zero_add, fl32_rounding.idem]
    exact this

/-- C7, the claim as stated fails; the run is in `float`. After `init()`,
`shake()`, `update(63/128, _)` (the offset cycle ends and restarts at
`fullShake.alpha = 63/64`, with the offset `15 * (1/64)^2.5 = 15/32768` when `rand()`
returns `RAND_MAX`) and `update(1/64, _)` (the envelope completes while the offset cycle
is still running), the state has `fullShake.alpha = 1` and the offset
`(15/32768, 15/32768)`. -/
theorem shaker_offset_at_envelope_end :
    ∃ s, Shaker.session Libc.demo fl32 2 (Animation.zeroed ShakerFn)
        (Animation.zeroed ShakerFn) 0
        [ShakerOp.update (63 / 128) (63 / 128), ShakerOp.update (1 / 64) (65 / 128)] =
          some s ∧
      s.fullShake.alpha = 1 ∧ s.fullShake.active = false ∧ s.ofsCycle.active = true ∧
      s.xofs = 15 / 32768 ∧ s.yofs = 15 / 32768 := by
  obtain ⟨hf1, hf2⟩ := Shaker.envelope_steps
  obtain ⟨ho1, ho2⟩ := Shaker.cycle_steps
  obtain ⟨s1, hs1, hw1, hx1, hy1, hfd1, hod1, hfa1, hf01, hoa1, ho01, -⟩ :=
    Shaker.shake_step Libc.demo fl32 0
      ((Shaker.new (Animation.zeroed ShakerFn) (Animation.zeroed ShakerFn) 0).init fl32)
      rfl rfl rfl rfl
  have hx1' : s1.xmag = 15 := hx1
  have hy1' : s1.ymag = 15 := hy1
  have hfd1' : s1.fullShake.duration = fl32 (1 / 2) := hfd1
  have hod1' : s1.ofsCycle.duration = fl32 (1 / 40) := hod1
  obtain ⟨s2, hs2, hw2, hx2, hy2, hfd2, hod2, hF2, hO2⟩ :=
    Shaker.update_step Libc.demo fl32 0 (63 / 128) (63 / 128) s1 hw1
  rw [hf01, hfd1', hf1] at hF2
  rw [ho01, hod1', hx1', hy1'] at hO2
  have hfa2 : s2.fullShake.active = true ∧ s2.fullShake.alpha = 63 / 64 := by
    rcases hF2 with ⟨h, -⟩ | ⟨-, -, h⟩ | ⟨-, h, -⟩
    · rw [hfa1] at h
      cases h
    · exact h
    · norm_num at h
  have hO2' : s2.ofsCycle.active = true ∧ s2.ofsCycle.alpha = 0 ∧
      s2.xofs = 15 / 32768 ∧ s2.yofs = 15 / 32768 := by
    rcases hO2 with ⟨h, -⟩ | ⟨-, h, -⟩ | ⟨-, -, h, -⟩ | ⟨-, -, -, ha, e, ex, ey, -⟩
    · rw [hoa1] at h
      cases h
    · exact absurd h (not_le.mpr ho1)
    · rw [hfa2.1] at h
      cases h
    · rw [hfa2.2, Shaker.draw_late] at ex ey
      exact ⟨ha, e, ex, ey⟩
  obtain ⟨s3, hs3, hw3, hx3, hy3, hfd3, hod3, hF3, hO3⟩ :=
    Shaker.update_step Libc.demo fl32 0 (1 / 64) (65 / 128) s2 hw2
  rw [hfa2.2, hfd2, hfd1', hf2] at hF3
  rw [hO2'.2.1, hod2, hod1'] at hO3
  have hfa3 : s3.fullShake.active = false ∧ s3.fullShake.alpha = 1 := by
    rcases hF3 with ⟨h, -⟩ | ⟨-, h, -⟩ | ⟨-, -, h⟩
    · rw [hfa2.1] at h
      cases h
    · norm_num at h
    · exact h
  have hO3' : s3.ofsCycle.active = true ∧ s3.xofs = 15 / 32768 ∧ s3.yofs = 15 / 32768 := by
    rcases hO3 with ⟨h, -⟩ | ⟨-, -, ha, -, ex, ey, -⟩ | ⟨-, h, -⟩ | ⟨-, h, -⟩
    · rw [hO2'.1] at h
      cases h
    · rw [hO2'.2.2.1] at ex
      rw [hO2'.2.2.2] at ey
      exact ⟨ha, ex, ey⟩
    · exact absurd ho2 (not_le.mpr h)
    · exact absurd ho2 (not_le.mpr h)
  refine ⟨s3, ?_, hfa3.2, hfa3.1, hO3'.1, hO3'.2.1, hO3'.2.2⟩
  rw [Shaker.session, hs1, Option.some_bind]
  show (Shaker.update Libc.demo fl32 (0 + 2) (63 / 128) (63 / 128) s1).bind
    (Shaker.run Libc.demo fl32 (0 + 2) [ShakerOp.update (1 / 64) (65 / 128)]) = some s3
  rw [hs2, Option.some_bind]
  show (Shaker.update Libc.demo fl32 (0 + 2) (1 / 64) (65 / 128) s2).bind
    (Shaker.run Libc.demo fl32 (0 + 2) []) = some s3
  rw [hs3, Option.some_bind]
  rfl

/-- C7 as amended. After `init()`, a first `shake()` and any further `shake()` and
`update(dt, t)` calls (with `pow(0, 2.5) = 0` and `0` a value of `double`, whatever
else `pow` and `rand` return), the calls return (callbacks nest to depth 2, fuel
`n + 2`) a state in which the offset is zero whenever `ofsCycle` is not active.
Whenever `fullShake.alpha = 1`, either the offset is zero, or `ofsCycle` is still
running and the offset is the one of an earlier state `s0` of the run (the state after
the first `m` calls) in which `ofsCycle` had just been started while `fullShake` was
active with `alpha = a < 1`: the offset `(r * 2 * 15 - 15) * pow(1 - a, 2.5)` that the
start callback drew there, computed in `double` and rounded into `float`, from two
consecutive `rand()` calls, with `xmag = ymag = 15`. In exact arithmetic `a ≥ 19/20`,
the last offset cycle having started within the last twentieth of the envelope.
Moreover, once `fullShake` is no longer active an update draws no new offset: it leaves
`ofsCycle` active with the offset unchanged, or inactive with the offset zero. -/
theorem shaker_offset_when_envelope_complete (c : Libc) (fl : ℚ → ℚ) (hfl : Rounding fl)
    (hpow : c.pow25 0 = 0) (hdbl : c.dbl 0 = 0) (n : ℕ) (o f : Animation ShakerFn) (k : ℕ)
    (ops : List ShakerOp) :
    ∃ s, Shaker.session c fl (n + 2) o f k ops = some s ∧
      (s.ofsCycle.active = false → s.xofs = 0 ∧ s.yofs = 0) ∧
      (s.fullShake.alpha = 1 →
        (s.xofs = 0 ∧ s.yofs = 0) ∨
        (s.ofsCycle.active = true ∧ ∃ a j m s0, m ≤ ops.length ∧
          Shaker.session c fl (n + 2) o f k (ops.take m) = some s0 ∧
          s0.fullShake.active = true ∧ s0.fullShake.alpha = a ∧ s0.ofsCycle.alpha = 0 ∧
          s0.xofs = s.xofs ∧ s0.yofs = s.yofs ∧
          a < 1 ∧ ((∀ x, fl x = x) → 19 / 20 ≤ a) ∧
          s.xofs = Shaker.offset c fl (c.rand01 j) 15 (fl (c.pow25 (fl (1 - a)))) ∧
          s.yofs = Shaker.offset c fl (c.rand01 (j + 1)) 15 (fl (c.pow25 (fl (1 - a)))))) ∧
      ∀ dt t, ∃ s', Shaker.update c fl (n + 2) dt t s = some s' ∧
        (s.fullShake.active = false →
          s'.randCalls = s.randCalls ∧
          ((s'.ofsCycle.active = true ∧ s'.xofs = s.xofs ∧ s'.yofs = s.yofs) ∨
           (s'.ofsCycle.active = false ∧ s'.xofs = 0 ∧ s'.yofs = 0))) := by
  obtain ⟨s, hs, hinv⟩ := Shaker.session_inv c fl n o f k ops
  refine ⟨s, hs, hinv.2.2.2.2.2.2.1, fun h1 => ?_, fun dt t => ?_⟩
  · obtain ⟨-, -, -, -, -, -, hz, hd⟩ := hinv
    cases hact : s.ofsCycle.active with
    | false => exact Or.inl (hz hact)
    | true =>
      obtain ⟨a, j, s0, ⟨m, hm, hs0⟩, hact0, hal0, hoz0, hx0, hy0, ha1, hx, hy, hex⟩ := hd hact
      rcases eq_or_lt_of_le ha1 with ha | ha
      · left
        rw [hx, hy, ha, sub_self, hfl.zero, hpow, hfl.zero]
        unfold Shaker.offset
        rw [mul_zero, mul_zero, hdbl, hfl.zero]
        exact ⟨rfl, rfl⟩
      · refine Or.inr ⟨rfl, a, j, m, s0, hm, hs0, hact0, hal0, hoz0, hx0, hy0, ha,
          fun hid => ?_, hx, hy⟩
        obtain ⟨hoa, hrun, hdone⟩ := hex hid
        cases hfa : s.fullShake.active with
        | false => exact (hdone hfa).le
        | true =>
          have := hrun hfa
          rw [h1] at this
          linarith
  · obtain ⟨s', hs', -, h⟩ := Shaker.update_inv c fl n dt t _ s hinv
    exact ⟨s', hs', h⟩

/-- C7 as amended, in `float`, at the run `init()`, `shake()`, `update(63/128, _)`,
`update(1/64, _)` with `pow25 x = x² √x` and `rand() = RAND_MAX`. -/
theorem shaker_offset_when_envelope_complete_witness :
    Rounding fl32 ∧ Libc.demo.pow25 0 = 0 ∧ Libc.demo.dbl 0 = 0 ∧
    ∃ s, Shaker.session Libc.demo fl32 (0 + 2) (Animation.zeroed ShakerFn)
        (Animation.zeroed ShakerFn) 0
        [ShakerOp.update (63 / 128) (63 / 128), ShakerOp.update (1 / 64) (65 / 128)] =
          some s ∧
      (s.ofsCycle.active = false → s.xofs = 0 ∧ s.yofs = 0) ∧
      (s.fullShake.alpha = 1 →
        (s.xofs = 0 ∧ s.yofs = 0) ∨
        (s.ofsCycle.active = true ∧ ∃ a j m s0,
          m ≤ [ShakerOp.update (63 / 128) (63 / 128),
            ShakerOp.update (1 / 64) (65 / 128)].length ∧
          Shaker.session Libc.demo fl32 (0 + 2) (Animation.zeroed ShakerFn)
            (Animation.zeroed ShakerFn) 0
            ([ShakerOp.update (63 / 128) (63 / 128),
              ShakerOp.update (1 / 64) (65 / 128)].take m) = some s0 ∧
          s0.fullShake.active = true ∧ s0.fullShake.alpha = a ∧ s0.ofsCycle.alpha = 0 ∧
          s0.xofs = s.xofs ∧ s0.yofs = s.yofs ∧
          a < 1 ∧ ((∀ x, fl32 x = x) → 19 / 20 ≤ a) ∧
          s.xofs = Shaker.offset Libc.demo fl32 (Libc.demo.rand01 j) 15
            (fl32 (Libc.demo.pow25 (fl32 (1 - a)))) ∧
          s.yofs = Shaker.offset Libc.demo fl32 (Libc.demo.rand01 (j + 1)) 15
            (fl32 (Libc.demo.pow25 (fl32 (1 - a)))))) ∧
      ∀ dt t, ∃ s', Shaker.update Libc.demo fl32 (0 + 2) dt t s = some s' ∧
        (s.fullShake.active = false →
          s'.randCalls = s.randCalls ∧
          ((s'.ofsCycle.active = true ∧ s'.xofs = s.xofs ∧ s'.yofs = s.yofs) ∨
           (s'.ofsCycle.active = false ∧ s'.xofs = 0 ∧ s'.yofs = 0))) :=
  have hpow : Libc.demo.pow25 0 = 0 := by simp [Libc.demo]
  ⟨fl32_rounding, hpow, rfl,
    shaker_offset_when_envelope_complete Libc.demo fl32 fl32_rounding hpow rfl 0 _ _ _ _⟩

/-! ## The chained pair -/

theorem alternating_succ_even (m : ℕ) (h : m % 2 = 0) :
    alternating (m + 1) = alternating m ++ [Side.A] := by
  simp [alternating, h]

theorem alternating_succ_odd (m : ℕ) (h : m % 2 = 1) :
    alternating (m + 1) = alternating m ++ [Side.B] := by
  simp [alternating, h]

theorem Pair.pair_setup_spec (n : ℕ) (dA dB : ℚ) (a b : Animation PairFn) :
    ∃ w, Pair.setup (n + 2) dA dB a b = some w ∧ w.Wired ∧ w.Alternates ∧
      w.A.duration = dA ∧ w.B.duration = dB := by
  simp [Pair.setup, Animation.start, Animation.reset, Animation.init, Animation.onStart,
    Animation.onEnd, Animation.clearCallbacks, invokeAll, Pair.call, Pair.refA, Pair.Wired,
    Pair.Alternates]
  exact ⟨0, by simp [alternating], by simp⟩

theorem Pair.pair_frame_spec (fl : ℚ → ℚ) (n : ℕ) (dt t : ℚ) (w : Pair) (hw : w.Wired)
    (ha : w.Alternates) :
    ∃ w', Pair.frame fl (n + 2) dt t w = some w' ∧ w'.Wired ∧ w'.Alternates ∧
      w'.A.duration = w.A.duration ∧ w'.B.duration = w.B.duration := by
  obtain ⟨⟨aa, ad, at_, atr, aact, as, ae⟩, ⟨ba, bd, bt, btr, bact, bs, be⟩, log⟩ := w
  obtain ⟨h1, h2, h3, h4, h5, h6⟩ := hw
  obtain ⟨m, hs, hm⟩ := ha
  simp only at h1 h2 h3 h4 h5 h6 hs hm
  subst h1 h2 h3 h4 h5 h6 hs
  rcases hm with ⟨hm, hA, hB⟩ | ⟨hm, hA, hB⟩
  · subst hA hB
    have e1 : (m + 1) % 2 = 1 := by omega
    have e2 : (m + 2) % 2 = 0 := by omega
    by_cases hcA : 1 < fl (aa + fl (dt / ad))
    · by_cases hcB : 1 < fl (fl (dt / bd))
      · norm_num [Pair.frame, Animation.update, Animation.fires, Animation.start,
          Animation.reset, invokeAll, Pair.call, Pair.refA, Pair.refB, Pair.Wired,
          Pair.Alternates, hcA, hcB]
        exact ⟨m + 2, by simp [alternating, e1, e2], by simp [e2]⟩
      · norm_num [Pair.frame, Animation.update, Animation.fires, Animation.start,
          Animation.reset, invokeAll, Pair.call, Pair.refA, Pair.refB, Pair.Wired,
          Pair.Alternates, hcA, hcB]
        exact ⟨m + 1, by simp [alternating, e1], by simp [e1]⟩
    · norm_num [Pair.frame, Animation.update, Animation.fires, Animation.start,
        Animation.reset, invokeAll, Pair.call, Pair.refA, Pair.refB, Pair.Wired,
        Pair.Alternates, hcA]
      exact ⟨m, rfl, by simp [hm]⟩
  · subst hA hB
    have e1 : (m + 1) % 2 = 0 := by omega
    by_cases hcB : 1 < fl (ba + fl (dt / bd))
    · norm_num [Pair.frame, Animation.update, Animation.fires, Animation.start,
        Animation.reset, invokeAll, Pair.call, Pair.refA, Pair.refB, Pair.Wired,
        Pair.Alternates, hcB]
      exact ⟨m + 1, by simp [alternating, e1], by simp [e1]⟩
    · norm_num [Pair.frame, Animation.update, Animation.fires, Animation.start,
        Animation.reset, invokeAll, Pair.call, Pair.refA, Pair.refB, Pair.Wired,
        Pair.Alternates, hcB]
      exact ⟨m, rfl, by simp [hm]⟩

theorem Pair.pair_frames_spec (fl : ℚ → ℚ) (n : ℕ) (us : List (ℚ × ℚ)) (w : Pair)
    (hw : w.Wired) (ha : w.Alternates) :
    ∃ w', Pair.frames fl (n + 2) us w = some w' ∧ w'.Wired ∧ w'.Alternates := by
  induction us generalizing w with
  | nil => exact ⟨w, rfl, hw, ha⟩
  | cons u us ih =>
    obtain ⟨w1, h1, hw1, ha1, -, -⟩ := Pair.pair_frame_spec fl n u.1 u.2 w hw ha
    obtain ⟨w2, h2, h⟩ := ih w1 hw1 ha1
    exact ⟨w2, by simp [Pair.frames, h1, h2], h⟩

/-- C6: the chained pair. Two animations with positive durations, both idle after
`init()`, wired `A.onEnd -> B.start()` and `B.onEnd -> A.start()` (each start vector
holding an observer that records the start event), then `A.start()`, then any
sequence of frames `A.update(dt, t); B.update(dt, t)`: the frames return (callbacks
nest to depth 2, fuel `n + 2`), at the end
of every frame exactly one of `A` and `B` is active, and the start events recorded so
far are `A, B, A, B, ...` in strict alternation, the last one being the start of the
animation that is active. Since `B.start()` is called only by the end callback of `A`
and conversely, every completion has started the other animation exactly once. -/
theorem chained_pair_alternates (fl : ℚ → ℚ) (n : ℕ) (dA dB : ℚ) (a b : Animation PairFn)
    (frames : List (ℚ × ℚ)) (_hA : 0 < dA) (_hB : 0 < dB) (_hdt : ∀ u ∈ frames, 0 ≤ u.1) :
    ∃ w, (Pair.setup (n + 2) dA dB a b).bind (Pair.frames fl (n + 2) frames) = some w ∧
      ((w.A.active = true ∧ w.B.active = false) ∨
       (w.A.active = false ∧ w.B.active = true)) ∧
      ∃ m, w.starts = alternating (m + 1) ∧ (w.A.active = true ↔ m % 2 = 0) := by
  obtain ⟨w0, h0, hw0, ha0, -, -⟩ := Pair.pair_setup_spec n dA dB a b
  obtain ⟨w, h, -, m, hs, hm⟩ := Pair.pair_frames_spec fl n frames w0 hw0 ha0
  refine ⟨w, by simp [h0, h], ?_, m, hs, ?_⟩
  · rcases hm with ⟨-, hA, hB⟩ | ⟨-, hA, hB⟩
    · exact Or.inl ⟨hA, hB⟩
    · exact Or.inr ⟨hA, hB⟩
  · rcases hm with ⟨hm, hA, -⟩ | ⟨hm, hA, -⟩
    · simp [hA, hm]
    · simp [hA, hm]

/-- C6 in `float`, at durations `1` and `2` and three frames with `dt = 0.5, 1, 5`. -/
theorem chained_pair_alternates_witness :
    (0 : ℚ) < 1 ∧ (0 : ℚ) < 2 ∧
    (∀ u ∈ [((1 : ℚ) / 2, (0 : ℚ)), (1, 0), (5, 0)], 0 ≤ u.1) ∧
    ∃ w, (Pair.setup (0 + 2) 1 2 (Animation.zeroed PairFn) (Animation.zeroed PairFn)).bind
        (Pair.frames fl32 (0 + 2) [((1 : ℚ) / 2, (0 : ℚ)), (1, 0), (5, 0)]) = some w ∧
      ((w.A.active = true ∧ w.B.active = false) ∨
       (w.A.active = false ∧ w.B.active = true)) ∧
      ∃ m, w.starts = alternating (m + 1) ∧ (w.A.active = true ↔ m % 2 = 0) :=
  have h : ∀ u ∈ [((1 : ℚ) / 2, (0 : ℚ)), (1, 0), (5, 0)], 0 ≤ u.1 := by
    norm_num
  ⟨by norm_num, by norm_num, h,
    chained_pair_alternates fl32 0 1 2 _ _ _ (by norm_num) (by norm_num) h⟩

/-! ## Kittens and Mouse: the walk follows the look -/

theorem Scene.jumpCycle_update (fl : ℚ → ℚ) (n : ℕ) (dt t : ℚ) (w : Scene)
    (h1 : w.mouse.jumpCycle.onStartCallbacks = [])
    (h2 : w.mouse.jumpCycle.onEndCallbacks = [.jumpCycleOnEnd]) :
    ∃ w', Animation.update fl (Scene.call (n + 2)) Scene.jumpCycleRef dt t w = some w' ∧
      w'.kittens = w.kittens ∧ w'.mouse.leftWalk = w.mouse.leftWalk ∧
      w'.mouse.rightWalk = w.mouse.rightWalk ∧
      w'.mouse.jumpCycle.onStartCallbacks = [] ∧
      w'.mouse.jumpCycle.onEndCallbacks = [.jumpCycleOnEnd] := by
  obtain ⟨k, ⟨d, sq, lw, rw, ⟨ja, jd, jt, jtr, jact, js, je⟩⟩⟩ := w
  simp only at h1 h2
  subst h1 h2
  by_cases hf : 0 ≤ jt ∧ jtr = false ∧ jt ≤ t <;>
    by_cases hc0 : 1 < fl (fl (dt / jd)) <;> by_cases hc : 1 < fl (ja + fl (dt / jd)) <;>
    cases jact <;>
    simp [Animation.update, Animation.fires, Animation.start, Animation.reset, invokeAll,
      Scene.call, Scene.jumpCycleRef, hf, hc0, hc]

set_option maxHeartbeats 3200000 in
theorem Scene.looks_walks_update (fl : ℚ → ℚ) (hfl : Rounding fl) (n : ℕ) (dt t : ℚ)
    (w : Scene) (h0 : 0 ≤ dt) (hdt : dt ≤ 8) (hw : w.Wired) (hs : w.Follows) :
    ∃ w', ((Kittens.update fl (n + 2) dt t w).bind fun w =>
        (Animation.update fl (Scene.call (n + 2)) Scene.leftWalkRef dt t w).bind fun w =>
        Animation.update fl (Scene.call (n + 2)) Scene.rightWalkRef dt t w) = some w' ∧
      w'.Wired ∧ w'.Follows := by
  obtain ⟨⟨cf, pf, ⟨la, ld, lt, ltr, lact, ls, le⟩, ⟨ra, rd, rt, rtr, ract, rs, re⟩, kd⟩,
    ⟨md, sq, ⟨wa, wd, wt, wtr, wact, ws, we⟩, ⟨va, vd, vt, vtr, vact, vs, ve⟩, jc⟩⟩ := w
  obtain ⟨⟨a1, a2, a3, a4⟩, ⟨b1, b2, b3, b4⟩, ⟨c1, c2⟩, ⟨d1, d2, d3, d4⟩, ⟨e1, e2, e3, e4⟩⟩ := hw
  simp only at a1 a2 a3 a4 b1 b2 b3 b4 c1 c2 d1 d2 d3 d4 e1 e2 e3 e4
  subst a1 a2 a3 a4 b1 b2 b3 b4 d1 d2 d3 d4 e1 e2 e3 e4
  have hidem : ∀ x, fl (fl x) = fl x := hfl.idem
  have hq : 0 ≤ fl (dt / 8) := by
    have := hfl.mono 0 (dt / 8) (by positivity)
    rwa [hfl.zero] at this
  have hq1 : ¬ (1 < fl (dt / 8)) := by
    have := hfl.mono (dt / 8) 1 (by rw [div_le_one (by norm_num)]; linarith)
    rw [hfl.one] at this
    exact not_lt.mpr this
  rcases hs with ⟨g1, g2, g3, g4⟩ | ⟨g1, g2, g3, g4⟩
  · simp only at g1 g2 g3 g4
    subst g1 g2 g3
    cases wact with
    | false =>
      by_cases hc : 1 < fl (la + fl (dt / 8)) <;>
        norm_num [Kittens.update, Animation.update, Animation.fires, Animation.start,
          Animation.reset, invokeAll, Scene.call, Scene.leftLookRef, Scene.rightLookRef,
          Scene.leftWalkRef, Scene.rightWalkRef, Scene.Wired, Scene.Follows, hc, hq1,
          hidem, c1, c2]
    | true =>
      have g5 : fl (la + fl (dt / 8)) ≤ fl (wa + fl (dt / 8)) :=
        hfl.mono _ _ (add_le_add_right (g4 rfl) _)
      by_cases hc : 1 < fl (la + fl (dt / 8)) <;>
        by_cases hx : 1 < fl (wa + fl (dt / 8)) <;>
        norm_num [Kittens.update, Animation.update, Animation.fires, Animation.start,
          Animation.reset, invokeAll, Scene.call, Scene.leftLookRef, Scene.rightLookRef,
          Scene.leftWalkRef, Scene.rightWalkRef, Scene.Wired, Scene.Follows, hc, hx, hq1,
          hidem, c1, c2] <;>
        linarith
  · simp only at g1 g2 g3 g4
    subst g1 g2 g3
    cases vact with
    | false =>
      by_cases hc : 1 < fl (ra + fl (dt / 8)) <;>
        norm_num [Kittens.update, Animation.update, Animation.fires, Animation.start,
          Animation.reset, invokeAll, Scene.call, Scene.leftLookRef, Scene.rightLookRef,
          Scene.leftWalkRef, Scene.rightWalkRef, Scene.Wired, Scene.Follows, hc, hq1,
          hidem, c1, c2]
      exact hq
    | true =>
      have g5 : fl (ra + fl (dt / 8)) ≤ fl (va + fl (dt / 8)) :=
        hfl.mono _ _ (add_le_add_right (g4 rfl) _)
      by_cases hc : 1 < fl (ra + fl (dt / 8)) <;>
        by_cases hx : 1 < fl (va + fl (dt / 8)) <;>
        norm_num [Kittens.update, Animation.update, Animation.fires, Animation.start,
          Animation.reset, invokeAll, Scene.call, Scene.leftLookRef, Scene.rightLookRef,
          Scene.leftWalkRef, Scene.rightWalkRef, Scene.Wired, Scene.Follows, hc, hx, hq1,
          hidem, c1, c2] <;>
        linarith

theorem Scene.scene_frame_spec (fl : ℚ → ℚ) (hfl : Rounding fl) (n : ℕ) (dt t : ℚ)
    (w : Scene) (h0 : 0 ≤ dt) (hdt : dt ≤ 8) (hw : w.Wired) (hs : w.Follows) :
    ∃ w', Scene.frame fl (n + 2) dt t w = some w' ∧ w'.Wired ∧ w'.Follows := by
  obtain ⟨w3, h3, hw3, hs3⟩ := Scene.looks_walks_update fl hfl n dt t w h0 hdt hw hs
  obtain ⟨w4, h4, hk, hl, hr, hj1, hj2⟩ :=
    Scene.jumpCycle_update fl n dt t w3 hw3.2.2.1.1 hw3.2.2.1.2
  simp only [Option.bind_eq_some] at h3
  obtain ⟨w1, hK, w2, hL, hR⟩ := h3
  have hw4 : w4.Wired := by
    unfold Scene.Wired at hw3 ⊢
    rw [hk, hl, hr]
    exact ⟨hw3.1, hw3.2.1, ⟨hj1, hj2⟩, hw3.2.2.2⟩
  have hs4 : w4.Follows := by
    unfold Scene.Follows at hs3 ⊢
    rw [hk, hl, hr]
    exact hs3
  simp only [Scene.frame, Mouse.update, hK, hL, hR, h4, Option.some_bind, Option.map_some']
  by_cases hl4 : w4.mouse.leftWalk.active = true
  · exact ⟨{ w4 with mouse := { w4.mouse with dir := -1 } }, by rw [if_pos hl4], hw4, hs4⟩
  · by_cases hr4 : w4.mouse.rightWalk.active = true
    · exact ⟨{ w4 with mouse := { w4.mouse with dir := 1 } },
        by rw [if_neg hl4, if_pos hr4], hw4, hs4⟩
    · exact ⟨w4, by rw [if_neg hl4, if_neg hr4], hw4, hs4⟩

theorem Scene.scene_frames_spec (fl : ℚ → ℚ) (hfl : Rounding fl) (n : ℕ)
    (us : List (ℚ × ℚ)) (w : Scene)
    (hdt : ∀ u ∈ us, 0 ≤ u.1 ∧ u.1 ≤ 8) (hw : w.Wired) (hs : w.Follows) :
    ∃ w', Scene.frames fl (n + 2) us w = some w' ∧ w'.Wired ∧ w'.Follows := by
  induction us generalizing w with
  | nil => exact ⟨w, rfl, hw, hs⟩
  | cons u us ih =>
    have hu := hdt u (List.mem_cons_self _ _)
    obtain ⟨w1, h1, hw1, hs1⟩ := Scene.scene_frame_spec fl hfl n u.1 u.2 w hu.1 hu.2 hw hs
    obtain ⟨w2, h2, h⟩ := ih w1 (fun v hv => hdt v (List.mem_cons_of_mem _ hv)) hw1 hs1
    exact ⟨w2, by simp [Scene.frames, h1, h2], h⟩

theorem Scene.scene_setup_spec (fl : ℚ → ℚ) (n : ℕ) (k : Kittens) (m : Mouse) :
    ∃ w, Scene.setup fl (n + 2) k m = some w ∧ w.Wired ∧ w.Follows := by
  norm_num [Scene.setup, Kittens.init, Mouse.init, Animation.start, Animation.reset,
    Animation.init, Animation.onStart, Animation.onEnd, Animation.clearCallbacks, invokeAll,
    Scene.call, Scene.leftLookRef, Scene.leftWalkRef, Scene.Wired, Scene.Follows]

/-- C10: the walk animations follow the look animations. With the objects set up as in
`main` (all four durations `8`, the five callbacks, `kittens.leftLook.start()`) and any
sequence of frames `kittens.update(dt, t); mouse.update(dt, t)` with `0 ≤ dt ≤ 8` (in
particular with `0 ≤ dt ≤ 0.1`, the clamp of the main loop, also when `0.1` is rounded
into `float`):
the frames return (callbacks nest to depth 2, fuel `n + 2`), and at the end of every
frame at most one of `mouse.leftWalk` and `mouse.rightWalk` is active,
`leftWalk.active` implies `leftLook.active`, and `rightWalk.active` implies
`rightLook.active`. -/
theorem walk_follows_look (fl : ℚ → ℚ) (hfl : Rounding fl) (n : ℕ) (k : Kittens)
    (m : Mouse) (frames : List (ℚ × ℚ))
    (hdt : ∀ u ∈ frames, 0 ≤ u.1 ∧ u.1 ≤ 8) :
    ∃ w, (Scene.setup fl (n + 2) k m).bind (Scene.frames fl (n + 2) frames) = some w ∧
      ¬ (w.mouse.leftWalk.active = true ∧ w.mouse.rightWalk.active = true) ∧
      (w.mouse.leftWalk.active = true → w.kittens.leftLook.active = true) ∧
      (w.mouse.rightWalk.active = true → w.kittens.rightLook.active = true) := by
  obtain ⟨w0, h0, hw0, hs0⟩ := Scene.scene_setup_spec fl n k m
  obtain ⟨w, h, -, hs⟩ := Scene.scene_frames_spec fl hfl n frames w0 hdt hw0 hs0
  refine ⟨w, by simp [h0, h], ?_⟩
  rcases hs with ⟨g1, g2, g3, -⟩ | ⟨g1, g2, g3, -⟩
  · simp [g1, g2, g3]
  · simp [g1, g2, g3]

/-- C10 in `float`, at two frames with `dt = 0.0625` and `dt = 0.03125`. -/
theorem walk_follows_look_witness :
    Rounding fl32 ∧
    (∀ u ∈ [((1 : ℚ) / 16, (1 : ℚ) / 16), (1 / 32, 3 / 32)], 0 ≤ u.1 ∧ u.1 ≤ 8) ∧
    ∃ w, (Scene.setup fl32 (0 + 2) Kittens.zeroed Mouse.zeroed).bind
        (Scene.frames fl32 (0 + 2) [((1 : ℚ) / 16, (1 : ℚ) / 16), (1 / 32, 3 / 32)]) =
          some w ∧
      ¬ (w.mouse.leftWalk.active = true ∧ w.mouse.rightWalk.active = true) ∧
      (w.mouse.leftWalk.active = true → w.kittens.leftLook.active = true) ∧
      (w.mouse.rightWalk.active = true → w.kittens.rightLook.active = true) :=
  have h : ∀ u ∈ [((1 : ℚ) / 16, (1 : ℚ) / 16), (1 / 32, 3 / 32)],
      0 ≤ u.1 ∧ u.1 ≤ 8 := by
    norm_num
  ⟨fl32_rounding, h, walk_follows_look fl32 fl32_rounding 0 Kittens.zeroed Mouse.zeroed _ h⟩

end SAT
